import Mathlib

set_option maxRecDepth 100000

/-!
Verification of the PLY splat loading pipeline of the glb-viewer
repository (`src/app/src/loaders/loadSplats.ts`): the binary container
header parser, the mesh/splat classifier (`detectPLYType`), and the
splat record decoder (`parsePLYSplat`).

Modelling conventions:
* File contents are `List ℕ` (byte values).  `TextDecoder('ascii')`
  output is modelled by treating each byte as one character code
  (headers are ASCII in every supported container).
* JavaScript numbers appearing in decoded buffers are modelled by `JSV`
  (a real number, `+∞`, `-∞`, or `NaN`), with JS/IEEE-754 semantics for
  the arithmetic the decoder performs.  Raw 4-byte reads are decoded
  exactly into `F32` (a rational, `+∞`, `-∞`, or `NaN`), since every
  float32 finite value is rational; this keeps the byte-level stage
  computable and decidable.
* Exceptions thrown by the TypeScript code (`throw new Error`,
  `RangeError` from `DataView`/`Float32Array`) become `Except Err`.
-/

/-- Error outcomes of the loader: `invalidPLY` models
`throw new Error('Invalid PLY: no end_header found')`; `rangeError`
models the `RangeError` thrown by `DataView.getFloat32` for an
out-of-bounds read or by `Float32Array` for an invalid length. -/
inductive Err where
  | invalidPLY
  | rangeError
deriving DecidableEq, Repr

/-- Byte list of a string literal (ASCII text as byte values). -/
def strB (s : String) : List ℕ := s.toList.map Char.toNat

/-- JS whitespace test used by `String.trim` / `split(/\s+/)`, restricted
to the byte range: tab, LF, VT, FF, CR, space, and NBSP (byte 0xA0 under
the `ascii`/windows-1252 decoder). -/
def isWsB (b : ℕ) : Bool := b = 9 || b = 10 || b = 11 || b = 12 || b = 13 || b = 32 || b = 160

/-- ASCII digit test. -/
def isDigitB (b : ℕ) : Bool := 48 ≤ b && b ≤ 57

/-- `String.trim`: drop whitespace from both ends. -/
def trimB (s : List ℕ) : List ℕ :=
  ((s.dropWhile isWsB).reverse.dropWhile isWsB).reverse

/-- `pat` is a leading segment of `s` (JS `String.startsWith`). -/
def startsWithB : List ℕ → List ℕ → Bool
  | [], _ => true
  | _ :: _, [] => false
  | p :: ps, b :: bs => p = b && startsWithB ps bs

/-- First index at which `pat` occurs in `s` (JS `String.indexOf`),
`none` when it does not occur. -/
def findSub (pat : List ℕ) : List ℕ → Option ℕ
  | [] => if startsWithB pat [] then some 0 else none
  | b :: bs =>
    if startsWithB pat (b :: bs) then some 0
    else (findSub pat bs).map (· + 1)

/-- JS `String.includes`. -/
def containsSub (pat s : List ℕ) : Bool := (findSub pat s).isSome

/-- `String.split('\n')`. -/
def splitNL : List ℕ → List (List ℕ)
  | [] => [[]]
  | b :: bs =>
    match splitNL bs with
    | [] => [[b]]
    | h :: t => if b = 10 then [] :: h :: t else (b :: h) :: t

/-- Helper for `splitWsB`: accumulates the current token (reversed). -/
def splitWsAux (cur : List ℕ) : List ℕ → List (List ℕ)
  | [] => if cur = [] then [] else [cur.reverse]
  | b :: bs =>
    if isWsB b then
      if cur = [] then splitWsAux [] bs else cur.reverse :: splitWsAux [] bs
    else splitWsAux (b :: cur) bs

/-- `trimmed.split(/\s+/)` on an already-trimmed string: the maximal
whitespace-free tokens in order. -/
def splitWsB (s : List ℕ) : List (List ℕ) := splitWsAux [] s

/-- Value of a digit list read in base 10. -/
def natOfDigits (ds : List ℕ) : ℕ := ds.foldl (fun a b => 10 * a + (b - 48)) 0

/-- JS `parseInt(s, 10)`: skip leading whitespace, optional sign, then
leading digits; `none` models `NaN` (no digits, or `parseInt(undefined)`
when the indexed part of the split line is absent). -/
def parseIntJS : Option (List ℕ) → Option ℤ
  | none => none
  | some s =>
    let s1 := s.dropWhile isWsB
    match s1 with
    | 43 :: rest =>
      let ds := rest.takeWhile isDigitB
      if ds = [] then none else some (natOfDigits ds)
    | 45 :: rest =>
      let ds := rest.takeWhile isDigitB
      if ds = [] then none else some (-(natOfDigits ds : ℤ))
    | rest =>
      let ds := rest.takeWhile isDigitB
      if ds = [] then none else some (natOfDigits ds)

/-- An IEEE-754 binary32 value as read by `DataView.getFloat32`.  Every
finite float32 is an exact multiple of `2⁻¹⁴⁹`, so `fin n` encodes the
real value `n / 2¹⁴⁹` as the integer `n` (`f32R` recovers the value);
the specials are kept explicit. -/
inductive F32 where
  | fin (n : ℤ)
  | inf
  | neginf
  | nan
deriving DecidableEq, Repr

/-- The real value encoded by the payload of `F32.fin`. -/
noncomputable def f32R (n : ℤ) : ℝ := (n : ℝ) / 2 ^ 149

/-- Exact little-endian IEEE-754 binary32 decoding of four bytes
(`DataView.getFloat32(·, true)`).  `b0` is the lowest-addressed byte.
A subnormal with fraction `fr` has value `fr / 2¹⁴⁹`; a normal with
exponent `ex` and fraction `fr` has value `(2²³ + fr)·2^(ex-150)`, i.e.
scaled payload `(2²³ + fr)·2^(ex-1)`.  Both zeroes decode to `fin 0`
(JS `+0 === -0`, and both are falsy). -/
def decodeF32LE (b0 b1 b2 b3 : ℕ) : F32 :=
  let bits : ℕ := b0 % 256 + 256 * (b1 % 256) + 65536 * (b2 % 256) + 16777216 * (b3 % 256)
  let sign : ℕ := bits / 2 ^ 31
  let ex : ℕ := bits / 2 ^ 23 % 256
  let fr : ℕ := bits % 2 ^ 23
  let sgn : ℤ := if sign = 0 then 1 else -1
  if ex = 255 then
    if fr = 0 then (if sign = 0 then .inf else .neginf) else .nan
  else if ex = 0 then
    .fin (sgn * (fr : ℤ))
  else
    .fin (sgn * (((2 ^ 23 + fr) * 2 ^ (ex - 1) : ℕ) : ℤ))

/-- A JavaScript number as stored into the decoded attribute buffers:
a real number, an infinity, or `NaN`. -/
inductive JSV where
  | fin (x : ℝ)
  | inf
  | neginf
  | nan

/-- Embed an exactly-decoded float32 into the JS number domain. -/
noncomputable def toJSV : F32 → JSV
  | .fin n => .fin (f32R n)
  | .inf => .inf
  | .neginf => .neginf
  | .nan => .nan

/-- JS `+` (IEEE-754 addition on the extended domain). -/
noncomputable def jadd : JSV → JSV → JSV
  | .nan, _ => .nan
  | _, .nan => .nan
  | .inf, .neginf => .nan
  | .neginf, .inf => .nan
  | .inf, _ => .inf
  | _, .inf => .inf
  | .neginf, _ => .neginf
  | _, .neginf => .neginf
  | .fin x, .fin y => .fin (x + y)

/-- JS unary minus. -/
noncomputable def jneg : JSV → JSV
  | .fin x => .fin (-x)
  | .inf => .neginf
  | .neginf => .inf
  | .nan => .nan

/-- JS `*` (IEEE-754 multiplication on the extended domain). -/
noncomputable def jmul : JSV → JSV → JSV
  | .nan, _ => .nan
  | _, .nan => .nan
  | .inf, .inf => .inf
  | .inf, .neginf => .neginf
  | .neginf, .inf => .neginf
  | .neginf, .neginf => .inf
  | .inf, .fin y => if y = 0 then .nan else if 0 < y then .inf else .neginf
  | .fin x, .inf => if x = 0 then .nan else if 0 < x then .inf else .neginf
  | .neginf, .fin y => if y = 0 then .nan else if 0 < y then .neginf else .inf
  | .fin x, .neginf => if x = 0 then .nan else if 0 < x then .neginf else .inf
  | .fin x, .fin y => .fin (x * y)

/-- JS `/` (IEEE-754 division; signed zero of the denominator is not
tracked, a zero denominator takes the positive-zero branch). -/
noncomputable def jdiv : JSV → JSV → JSV
  | .nan, _ => .nan
  | _, .nan => .nan
  | .inf, .inf => .nan
  | .inf, .neginf => .nan
  | .neginf, .inf => .nan
  | .neginf, .neginf => .nan
  | .inf, .fin y => if 0 ≤ y then .inf else .neginf
  | .neginf, .fin y => if 0 ≤ y then .neginf else .inf
  | .fin _, .inf => .fin 0
  | .fin _, .neginf => .fin 0
  | .fin x, .fin y =>
    if y = 0 then (if x = 0 then .nan else if 0 < x then .inf else .neginf)
    else .fin (x / y)

/-- JS `Math.exp`. -/
noncomputable def jexp : JSV → JSV
  | .fin x => .fin (Real.exp x)
  | .inf => .inf
  | .neginf => .fin 0
  | .nan => .nan

/-- JS `Math.min` of two arguments (`NaN` absorbs). -/
noncomputable def jmin : JSV → JSV → JSV
  | .nan, _ => .nan
  | _, .nan => .nan
  | .neginf, _ => .neginf
  | _, .neginf => .neginf
  | .inf, y => y
  | x, .inf => x
  | .fin x, .fin y => .fin (min x y)

/-- JS `Math.max` of two arguments (`NaN` absorbs). -/
noncomputable def jmax : JSV → JSV → JSV
  | .nan, _ => .nan
  | _, .nan => .nan
  | .inf, _ => .inf
  | _, .inf => .inf
  | .neginf, y => y
  | x, .neginf => x
  | .fin x, .fin y => .fin (max x y)

/-- Whether a JS number is finite (`Number.isFinite`). -/
def jsFinite : JSV → Bool
  | .fin _ => true
  | _ => false

/-- JS falsy-default idiom `v || d`: `0`, `-0` and `NaN` are falsy. -/
noncomputable def jsOr (v d : JSV) : JSV :=
  match v with
  | .fin x => if x = 0 then d else .fin x
  | .nan => d
  | w => w

/-- One parsed `property <type> <name>` line of `parsePLYSplat`:
`parts[1]` / `parts[2]` of the split line (absent parts are `none`,
modelling `undefined`), and the running byte offset. -/
structure PropD where
  name : Option (List ℕ)
  ptype : Option (List ℕ)
  off : ℕ
deriving DecidableEq, Repr

/-- Byte size assigned to a property type token by `parsePLYSplat`:
`double` → 8, `uchar`/`char` → 1, `short`/`ushort` → 2, otherwise 4. -/
def typeSize (ty : Option (List ℕ)) : ℕ :=
  if ty = some (strB "double") then 8
  else if ty = some (strB "uchar") ∨ ty = some (strB "char") then 1
  else if ty = some (strB "short") ∨ ty = some (strB "ushort") then 2
  else 4

/-- Accumulator of `parsePLYSplat`'s header line loop. -/
structure HeaderSt where
  vertexCount : Option ℤ
  props : List PropD
  runningOffset : ℕ
  format : List ℕ
deriving DecidableEq, Repr

/-- Initial accumulator: `vertexCount = 0`, no properties, offset `0`,
`format = 'binary_little_endian'`. -/
def initSt : HeaderSt :=
  { vertexCount := some 0, props := [], runningOffset := 0,
    format := strB "binary_little_endian" }

/-- One iteration of `parsePLYSplat`'s `for (const line of lines)` loop:
the three independent `if` blocks for `format`, `element vertex` and
`property` lines. -/
def stepLine (st : HeaderSt) (line : List ℕ) : HeaderSt :=
  let t := trimB line
  let st1 :=
    if startsWithB (strB "format") t then
      { st with format :=
          if containsSub (strB "ascii") t then strB "ascii"
          else if containsSub (strB "binary_big_endian") t then strB "binary_big_endian"
          else st.format }
    else st
  let st2 :=
    if startsWithB (strB "element vertex") t then
      { st1 with vertexCount := parseIntJS ((splitWsB t).get? 2) }
    else st1
  if startsWithB (strB "property") t then
    let parts := splitWsB t
    { st2 with
      props := st2.props ++ [⟨parts.get? 2, parts.get? 1, st2.runningOffset⟩],
      runningOffset := st2.runningOffset + typeSize (parts.get? 1) }
  else st2

/-- Result of the header phase of `parsePLYSplat`: `headerEnd` is the
data start offset (index just past `end_header` and any following
LF/CR bytes), `st` the accumulated header state. -/
structure HeaderInfo where
  headerEnd : ℕ
  st : HeaderSt
deriving DecidableEq, Repr

/-- Header phase of `parsePLYSplat` (lines 39–88 of the source):
decode the first 8192 bytes as text, locate `end_header` (failing with
`invalidPLY` otherwise), advance past trailing newline bytes, split the
preceding text into lines and fold `stepLine` over them. -/
def parseHeaderB (bytes : List ℕ) : Except Err HeaderInfo :=
  let headerText := bytes.take 8192
  match findSub (strB "end_header") headerText with
  | none => .error .invalidPLY
  | some idx =>
    let he0 := idx + (strB "end_header").length
    let he := he0 + ((bytes.drop he0).takeWhile (fun b => b = 10 || b = 13)).length
    let lines := splitNL (headerText.take idx)
    .ok ⟨he, lines.foldl stepLine initSt⟩

/-- `getFloat` of `parsePLYSplat` (lines 105–109): look the property up
by name (`Array.find` — the FIRST occurrence), return `0` when absent,
otherwise read a little-endian float32 at `headerEnd + vertexOffset +
prop.offset`; an out-of-range `DataView.getFloat32` throws. -/
def getFloat (bytes : List ℕ) (headerEnd : ℕ) (props : List PropD)
    (vOff : ℕ) (pname : List ℕ) : Except Err F32 :=
  match props.find? (fun p => p.name = some pname) with
  | none => .ok (.fin 0)
  | some p =>
    let a := headerEnd + vOff + p.off
    if a + 4 ≤ bytes.length then
      .ok (decodeF32LE (bytes.getD a 0) (bytes.getD (a + 1) 0)
            (bytes.getD (a + 2) 0) (bytes.getD (a + 3) 0))
    else .error .rangeError

/-- One decoded splat record: position, exponentiated scale, quaternion
components in storage order `(w,x,y,z)`, clamped base color channels,
and sigmoid opacity. -/
structure SplatRec where
  px : JSV
  py : JSV
  pz : JSV
  sx : JSV
  sy : JSV
  sz : JSV
  rw : JSV
  rx : JSV
  ry : JSV
  rz : JSV
  cr : JSV
  cg : JSV
  cb : JSV
  op : JSV

/-- SH band-0 normalization constant `SH_C0` from the source. -/
noncomputable def SH_C0 : ℝ := 0.28209479177387814

/-- `Math.exp(getFloat(...) || 0)` — the scale channels. -/
noncomputable def scaleJS (v : JSV) : JSV := jexp (jsOr v (.fin 0))

/-- `Math.max(0, Math.min(1, 0.5 + SH_C0 * getFloat(...)))` — one base
color channel. -/
noncomputable def chanJS (v : JSV) : JSV :=
  jmax (.fin 0) (jmin (.fin 1) (jadd (.fin 0.5) (jmul (.fin SH_C0) v)))

/-- `1 / (1 + Math.exp(-rawOpacity))` — the logistic sigmoid applied to
the (falsy-defaulted) raw opacity. -/
noncomputable def sigmoidJS (v : JSV) : JSV :=
  jdiv (.fin 1) (jadd (.fin 1) (jexp (jneg v)))

/-- Assemble one record from the fourteen raw field reads, applying the
per-field conversions of source lines 121–148. -/
noncomputable def mkRec (vx vy vz s0 s1 s2 r0 r1 r2 r3 c0 c1 c2 vop : F32) : SplatRec :=
  { px := toJSV vx, py := toJSV vy, pz := toJSV vz,
    sx := scaleJS (toJSV s0), sy := scaleJS (toJSV s1), sz := scaleJS (toJSV s2),
    rw := jsOr (toJSV r0) (.fin 1), rx := jsOr (toJSV r1) (.fin 0),
    ry := jsOr (toJSV r2) (.fin 0), rz := jsOr (toJSV r3) (.fin 0),
    cr := chanJS (toJSV c0), cg := chanJS (toJSV c1), cb := chanJS (toJSV c2),
    op := sigmoidJS (jsOr (toJSV vop) (.fin 0)) }

/-- The fourteen raw field values of one record in read order.  Keeping
this stage at the exactly-decoded `F32` level makes it computable. -/
structure RawRec where
  vx : F32
  vy : F32
  vz : F32
  s0 : F32
  s1 : F32
  s2 : F32
  r0 : F32
  r1 : F32
  r2 : F32
  r3 : F32
  c0 : F32
  c1 : F32
  c2 : F32
  vop : F32
deriving DecidableEq, Repr

/-- The fourteen named-field reads of the loop body for record `i`, in
source order (the first out-of-bounds read aborts the decode). -/
def rawReads (bytes : List ℕ) (he : ℕ) (props : List PropD)
    (bpr : ℕ) (i : ℕ) : Except Err RawRec :=
  (getFloat bytes he props (i * bpr) (strB "x")).bind fun vx =>
  (getFloat bytes he props (i * bpr) (strB "y")).bind fun vy =>
  (getFloat bytes he props (i * bpr) (strB "z")).bind fun vz =>
  (getFloat bytes he props (i * bpr) (strB "scale_0")).bind fun s0 =>
  (getFloat bytes he props (i * bpr) (strB "scale_1")).bind fun s1 =>
  (getFloat bytes he props (i * bpr) (strB "scale_2")).bind fun s2 =>
  (getFloat bytes he props (i * bpr) (strB "rot_0")).bind fun r0 =>
  (getFloat bytes he props (i * bpr) (strB "rot_1")).bind fun r1 =>
  (getFloat bytes he props (i * bpr) (strB "rot_2")).bind fun r2 =>
  (getFloat bytes he props (i * bpr) (strB "rot_3")).bind fun r3 =>
  (getFloat bytes he props (i * bpr) (strB "f_dc_0")).bind fun c0 =>
  (getFloat bytes he props (i * bpr) (strB "f_dc_1")).bind fun c1 =>
  (getFloat bytes he props (i * bpr) (strB "f_dc_2")).bind fun c2 =>
  (getFloat bytes he props (i * bpr) (strB "opacity")).bind fun vop =>
  .ok ⟨vx, vy, vz, s0, s1, s2, r0, r1, r2, r3, c0, c1, c2, vop⟩

/-- Decode record `i`: the raw reads followed by the per-field
conversions of source lines 121–148. -/
noncomputable def decodeRec (bytes : List ℕ) (he : ℕ) (props : List PropD)
    (bpr : ℕ) (i : ℕ) : Except Err SplatRec :=
  (rawReads bytes he props bpr i).map fun t =>
    mkRec t.vx t.vy t.vz t.s0 t.s1 t.s2 t.r0 t.r1 t.r2 t.r3 t.c0 t.c1 t.c2 t.vop

/-- Sequential effectful map over a list, aborting at the first error —
the semantics of the source's `for` loop over record indices. -/
def mapE {α β : Type} (f : α → Except Err β) : List α → Except Err (List β)
  | [] => .ok []
  | x :: xs =>
    match f x with
    | .error e => .error e
    | .ok y =>
      match mapE f xs with
      | .error e => .error e
      | .ok ys => .ok (y :: ys)

/-- The decoded attribute buffers (`SplatData` in the source): flat
parallel lists with 3 / 3 / 4 / 3 / 1 slots per record. -/
structure SplatData where
  positions : List JSV
  scales : List JSV
  rotations : List JSV
  colors : List JSV
  opacities : List JSV
  count : ℕ

/-- Flatten a list of decoded records into the attribute buffers. -/
def buildData (n : ℕ) (recs : List SplatRec) : SplatData :=
  { positions := (recs.map (fun r => [r.px, r.py, r.pz])).flatten,
    scales := (recs.map (fun r => [r.sx, r.sy, r.sz])).flatten,
    rotations := (recs.map (fun r => [r.rw, r.rx, r.ry, r.rz])).flatten,
    colors := (recs.map (fun r => [r.cr, r.cg, r.cb])).flatten,
    opacities := recs.map (fun r => r.op),
    count := n }

/-- `actualCount` of source line 89: `maxPoints ? Math.min(vertexCount,
maxPoints) : vertexCount` — note that a cap of `0` is falsy and is
therefore ignored. -/
def actualCountJS (vc : ℕ) (cap : Option ℕ) : ℕ :=
  match cap with
  | some m => if m = 0 then vc else min vc m
  | none => vc

/-- `parsePLYSplat(data, maxPoints)`: header phase, then `Float32Array`
allocation (which throws `RangeError` for a `NaN` or negative length),
then the per-record decode loop over `actualCount` records. -/
noncomputable def parsePLYSplat (bytes : List ℕ) (maxPoints : Option ℕ) :
    Except Err SplatData :=
  match parseHeaderB bytes with
  | .error e => .error e
  | .ok h =>
    match h.st.vertexCount with
    | none => .error .rangeError
    | some vc =>
      if vc < 0 then .error .rangeError
      else if bytes.length < h.headerEnd then .error .rangeError
      else
        (mapE (decodeRec bytes h.headerEnd h.st.props h.st.runningOffset)
          (List.range (actualCountJS vc.toNat maxPoints))).map
          (buildData (actualCountJS vc.toNat maxPoints))

/-- `^<pre>\d+$`: the string is `pre` followed by one or more digits —
the anchored digit-tailed patterns of `SPLAT_PROPERTY_PATTERNS`. -/
def matchDigitTail (pre s : List ℕ) : Bool :=
  startsWithB pre s && (s.drop pre.length ≠ [] && (s.drop pre.length).all isDigitB)

/-- Membership in `SPLAT_PROPERTY_PATTERNS` (source lines 278–285):
`f_dc_\d+`, `f_rest_\d+`, `opacity`, `scale_\d+`, `rot_\d+`, `sh_\d+`.
The source loop pushes a name once, at the first matching pattern, so
membership in the union is what is recorded. -/
def matchesSplatPattern (s : List ℕ) : Bool :=
  matchDigitTail (strB "f_dc_") s || matchDigitTail (strB "f_rest_") s ||
  s = strB "opacity" || matchDigitTail (strB "scale_") s ||
  matchDigitTail (strB "rot_") s || matchDigitTail (strB "sh_") s

/-- The four decisive patterns of the `hasSplatProps` test (source lines
345–348): `opacity`, `scale_\d+`, `rot_\d+`, `f_dc_\d+`. -/
def isDecisiveSplatName (s : List ℕ) : Bool :=
  s = strB "opacity" || matchDigitTail (strB "scale_") s ||
  matchDigitTail (strB "rot_") s || matchDigitTail (strB "f_dc_") s

/-- Classification outcome. -/
inductive PLYType where
  | mesh
  | splat
deriving DecidableEq, Repr

/-- Result of `detectPLYType` (`PLYDetectionResult` in the source).
`vertexCount = none` models `NaN`. -/
structure PLYDetectionResult where
  type : PLYType
  vertexCount : Option ℤ
  hasColors : Bool
  hasNormals : Bool
  splatProperties : List (List ℕ)
deriving DecidableEq, Repr

/-- Property names whose lowercase form marks `hasColors`. -/
def colorNames : List (List ℕ) :=
  [strB "red", strB "green", strB "blue", strB "r", strB "g", strB "b",
   strB "diffuse_red", strB "diffuse_green", strB "diffuse_blue"]

/-- Property names whose lowercase form marks `hasNormals`. -/
def normalNames : List (List ℕ) :=
  [strB "nx", strB "ny", strB "nz", strB "normal_x", strB "normal_y", strB "normal_z"]

/-- ASCII lowercasing (JS `toLowerCase` restricted to the byte range). -/
def lowerB (s : List ℕ) : List ℕ :=
  s.map (fun b => if 65 ≤ b ∧ b ≤ 90 then b + 32 else b)

/-- Accumulator of `detectPLYType`'s line loop. -/
structure DetectSt where
  vertexCount : Option ℤ
  hasColors : Bool
  hasNormals : Bool
  splatProperties : List (List ℕ)
  allProperties : List (List ℕ)
deriving DecidableEq, Repr

/-- One iteration of `detectPLYType`'s line loop (source lines 308–341):
`element vertex` updates the count; a `property` line records its last
token (`parts[parts.length - 1]`) into `allProperties`, sets the
color/normal flags, and records the name into `splatProperties` when it
matches one of `SPLAT_PROPERTY_PATTERNS`. -/
def detectStep (st : DetectSt) (line : List ℕ) : DetectSt :=
  let t := trimB line
  let st1 :=
    if startsWithB (strB "element vertex") t then
      { st with vertexCount := parseIntJS ((splitWsB t).get? 2) }
    else st
  if startsWithB (strB "property") t then
    let pn := (splitWsB t).getLast?.getD []
    let st2 := { st1 with allProperties := st1.allProperties ++ [pn] }
    let st3 := if colorNames.contains (lowerB pn) then { st2 with hasColors := true } else st2
    let st4 := if normalNames.contains (lowerB pn) then { st3 with hasNormals := true } else st3
    if matchesSplatPattern pn then
      { st4 with splatProperties := st4.splatProperties ++ [pn] }
    else st4
  else st1

/-- Initial accumulator of `detectPLYType`. -/
def detectInit : DetectSt :=
  { vertexCount := some 0, hasColors := false, hasNormals := false,
    splatProperties := [], allProperties := [] }

/-- The header lines scanned by `detectPLYType`: text before the first
`end_header` within the first 8192 bytes, split at newlines. -/
def detectLines (bytes : List ℕ) : List (List ℕ) :=
  match findSub (strB "end_header") (bytes.take 8192) with
  | none => []
  | some idx => splitNL ((bytes.take 8192).take idx)

/-- `detectPLYType(data)` (source lines 287–359): scan the header lines,
then classify `splat` when `splatProperties` contains an `opacity`,
`scale_\d+`, `rot_\d+` or `f_dc_\d+` name, else `mesh`. -/
def detectPLYType (bytes : List ℕ) : Except Err PLYDetectionResult :=
  match findSub (strB "end_header") (bytes.take 8192) with
  | none => .error .invalidPLY
  | some idx =>
    let st := (splitNL ((bytes.take 8192).take idx)).foldl detectStep detectInit
    let hasSplatProps :=
      st.splatProperties.any (fun p => p = strB "opacity") ||
      st.splatProperties.any (matchDigitTail (strB "scale_")) ||
      st.splatProperties.any (matchDigitTail (strB "rot_")) ||
      st.splatProperties.any (matchDigitTail (strB "f_dc_"))
    .ok { type := if hasSplatProps then .splat else .mesh,
          vertexCount := st.vertexCount,
          hasColors := st.hasColors,
          hasNormals := st.hasNormals,
          splatProperties := st.splatProperties }

/-- The full property-name list a header declares, as `detectPLYType`
extracts it (each `property` line's last token, in order). -/
def propNameOfLine (l : List ℕ) : Option (List ℕ) :=
  if startsWithB (strB "property") (trimB l) then
    some ((splitWsB (trimB l)).getLast?.getD [])
  else none

/-- All property names of the scanned header, in declaration order. -/
def propNamesOf (bytes : List ℕ) : List (List ℕ) :=
  (detectLines bytes).filterMap propNameOfLine

/-- C4 test container: header `element vertex 3` with float properties
`x`, `y`, `z` and no payload (header parsing only). -/
def exXYZ : List ℕ :=
  strB "ply\nformat binary_little_endian 1.0\nelement vertex 3\nproperty float x\nproperty float y\nproperty float z\nend_header\n"

/-- C1 test container: one decisive name (`opacity`) and one
diagnostic-only name (`f_rest_0`). -/
def exSplatHdr : List ℕ :=
  strB "ply\nformat binary_little_endian 1.0\nelement vertex 1\nproperty float x\nproperty float opacity\nproperty float f_rest_0\nend_header\n"

/-- C2 test container: a single `opacity` property storing float 0. -/
def exOp : List ℕ :=
  strB "ply\nformat binary_little_endian 1.0\nelement vertex 1\nproperty float opacity\nend_header\n" ++ [0, 0, 0, 0]

/-- C3 counterexample container: a present `rot_0` field storing the
float `0.0` (bytes `00 00 00 00`). -/
def exRot0 : List ℕ :=
  strB "ply\nformat binary_little_endian 1.0\nelement vertex 1\nproperty float rot_0\nend_header\n" ++ [0, 0, 0, 0]

/-- C3 witness container: `rot_0 = 1.5`, `rot_1 = 2.0`, `rot_2`/`rot_3`
absent from the layout. -/
def exRot2 : List ℕ :=
  strB "ply\nformat binary_little_endian 1.0\nelement vertex 1\nproperty float rot_0\nproperty float rot_1\nend_header\n" ++ [0, 0, 192, 63, 0, 0, 0, 64]

/-- C5 container: 3 records of a single float `x`, all zero. -/
def exThree : List ℕ :=
  strB "ply\nformat binary_little_endian 1.0\nelement vertex 3\nproperty float x\nend_header\n" ++ [0, 0, 0, 0, 0, 0, 0, 0, 0, 0, 0, 0]

/-- C6 counterexample container: 2 declared records of a property the
decoder never reads (`foo`), with the payload entirely missing. -/
def exFoo : List ℕ :=
  strB "ply\nformat binary_little_endian 1.0\nelement vertex 2\nproperty float foo\nend_header\n"

/-- Truncated container whose `x` field IS read: 1 declared record of
float `x` but only 2 payload bytes. -/
def exTrunc : List ℕ :=
  strB "ply\nformat binary_little_endian 1.0\nelement vertex 1\nproperty float x\nend_header\n" ++ [0, 0]

/-- C7 counterexample container: declared `binary_big_endian`, one
float `x` whose stored bytes are `00 00 80 3f` (little-endian 1.0). -/
def exBig : List ℕ :=
  strB "ply\nformat binary_big_endian 1.0\nelement vertex 1\nproperty float x\nend_header\n" ++ [0, 0, 128, 63]

/-- C7 container: declared `ascii`, same payload bytes. -/
def exAscii : List ℕ :=
  strB "ply\nformat ascii 1.0\nelement vertex 1\nproperty float x\nend_header\n" ++ [0, 0, 128, 63]

/-- C8 counterexample container: `x` stores the `+∞` bit pattern
`00 00 80 7f`. -/
def exInf : List ℕ :=
  strB "ply\nformat binary_little_endian 1.0\nelement vertex 1\nproperty float x\nend_header\n" ++ [0, 0, 128, 127]

/-- C8 witness container: `f_dc_0` stores float `10.0` (bytes
`00 00 20 41`), whose pre-clamp channel exceeds 1. -/
def exFdc : List ℕ :=
  strB "ply\nformat binary_little_endian 1.0\nelement vertex 1\nproperty float f_dc_0\nend_header\n" ++ [0, 0, 32, 65]

/-- C9 counterexample container: two properties both named `x`, record
bytes `1.0f` then `2.0f`. -/
def exDup : List ℕ :=
  strB "ply\nformat binary_little_endian 1.0\nelement vertex 1\nproperty float x\nproperty float x\nend_header\n" ++ [0, 0, 128, 63, 0, 0, 0, 64]

/-- C10 container: a second element (`element face 1`) with its own
property line between the vertex properties and `end_header`. -/
def exFace : List ℕ :=
  strB "ply\nformat binary_little_endian 1.0\nelement vertex 2\nproperty float x\nproperty float y\nproperty float z\nelement face 1\nproperty uchar q\nend_header\n"

/-- Sum of the byte sizes of a property list. -/
def propSizes (ps : List PropD) : ℕ := (ps.map (fun p => typeSize p.ptype)).sum

/-- Layout invariant of the header fold: each property's offset is the
sum of the sizes of the properties before it, and the running offset is
the total size. -/
def offsetsOk (st : HeaderSt) : Prop :=
  (∀ i p, st.props.get? i = some p → p.off = propSizes (st.props.take i)) ∧
  st.runningOffset = propSizes st.props

/-- The record decoded from all-zero (or absent) raw fields. -/
noncomputable def zeroRec : SplatRec :=
  mkRec (.fin 0) (.fin 0) (.fin 0) (.fin 0) (.fin 0) (.fin 0) (.fin 0)
    (.fin 0) (.fin 0) (.fin 0) (.fin 0) (.fin 0) (.fin 0) (.fin 0)

/-- The all-zero raw read record. -/
def zeroRaw : RawRec :=
  ⟨.fin 0, .fin 0, .fin 0, .fin 0, .fin 0, .fin 0, .fin 0,
   .fin 0, .fin 0, .fin 0, .fin 0, .fin 0, .fin 0, .fin 0⟩

/-- Record with `rot_0 = 1.5`, `rot_1 = 2.0` and all other raw fields
zero/absent (scaled payloads: `1.5·2¹⁴⁹ = 3·2¹⁴⁸`, `2·2¹⁴⁹ = 2¹⁵⁰`). -/
noncomputable def rot2Rec : SplatRec :=
  mkRec (.fin 0) (.fin 0) (.fin 0) (.fin 0) (.fin 0) (.fin 0)
    (.fin (3 * 2 ^ 148)) (.fin (2 ^ 150)) (.fin 0) (.fin 0)
    (.fin 0) (.fin 0) (.fin 0) (.fin 0)

/-- Record with `f_dc_0 = 10.0` (scaled payload `10·2¹⁴⁹ = 5·2¹⁵⁰`) and
all other raw fields zero/absent. -/
noncomputable def fdcRec : SplatRec :=
  mkRec (.fin 0) (.fin 0) (.fin 0) (.fin 0) (.fin 0) (.fin 0) (.fin 0)
    (.fin 0) (.fin 0) (.fin 0) (.fin (5 * 2 ^ 150)) (.fin 0) (.fin 0) (.fin 0)

/-- Record whose stored `x` is the `+∞` bit pattern. -/
noncomputable def infRec : SplatRec :=
  mkRec .inf (.fin 0) (.fin 0) (.fin 0) (.fin 0) (.fin 0) (.fin 0)
    (.fin 0) (.fin 0) (.fin 0) (.fin 0) (.fin 0) (.fin 0) (.fin 0)

/-- Record whose stored `x` is `1.0` (scaled payload `2¹⁴⁹`) and all
other raw fields zero/absent. -/
noncomputable def oneXRec : SplatRec :=
  mkRec (.fin (2 ^ 149)) (.fin 0) (.fin 0) (.fin 0) (.fin 0) (.fin 0) (.fin 0)
    (.fin 0) (.fin 0) (.fin 0) (.fin 0) (.fin 0) (.fin 0) (.fin 0)

/-- Decidable equality of `Except` results (both components decidable). -/
instance exceptDecEq {ε α : Type} [DecidableEq ε] [DecidableEq α] :
    DecidableEq (Except ε α)
  | .error e, .error f =>
    if h : e = f then .isTrue (by rw [h]) else .isFalse (by simp [h])
  | .error _, .ok _ => .isFalse (by simp)
  | .ok _, .error _ => .isFalse (by simp)
  | .ok a, .ok b =>
    if h : a = b then .isTrue (by rw [h]) else .isFalse (by simp [h])

theorem ebind_ok_iff {α β : Type} {ma : Except Err α} {f : α → Except Err β} {b : β} :
    ma.bind f = .ok b ↔ ∃ a, ma = .ok a ∧ f a = .ok b := by
  cases ma <;> simp [Except.bind]

theorem stepLine_props (st : HeaderSt) (l : List ℕ) :
    (stepLine st l).props =
      if startsWithB (strB "property") (trimB l) then
        st.props ++ [⟨(splitWsB (trimB l)).get? 2, (splitWsB (trimB l)).get? 1, st.runningOffset⟩]
      else st.props := by
  simp only [stepLine]
  split <;> split <;> split <;> rfl

theorem stepLine_off (st : HeaderSt) (l : List ℕ) :
    (stepLine st l).runningOffset =
      if startsWithB (strB "property") (trimB l) then
        st.runningOffset + typeSize ((splitWsB (trimB l)).get? 1)
      else st.runningOffset := by
  simp only [stepLine]
  split <;> split <;> split <;> rfl

theorem stepLine_offsetsOk (st : HeaderSt) (l : List ℕ) (h : offsetsOk st) :
    offsetsOk (stepLine st l) := by
  obtain ⟨h1, h2⟩ := h
  constructor
  · intro i p hi
    rw [stepLine_props] at hi ⊢
    by_cases hp : startsWithB (strB "property") (trimB l) = true
    · simp only [hp, if_true] at hi ⊢
      rcases lt_or_ge i st.props.length with hlt | hge
      · rw [List.get?_append hlt] at hi
        rw [List.take_append_of_le_length (le_of_lt hlt)]
        exact h1 i p hi
      · rw [List.get?_append_right hge] at hi
        rcases Nat.lt_or_ge (i - st.props.length) 1 with hi1 | hi1
        · have hlen : i = st.props.length := by omega
          rw [hlen, Nat.sub_self] at hi
          have hp2 : p = ⟨(splitWsB (trimB l)).get? 2, (splitWsB (trimB l)).get? 1,
              st.runningOffset⟩ := (Option.some.inj hi).symm
          subst hp2
          rw [hlen, List.take_append_of_le_length (le_refl _), List.take_length]
          exact h2
        · rw [List.get?_eq_none.2 (by simp; omega)] at hi
          exact absurd hi (by simp)
    · simp only [hp, if_false] at hi ⊢
      exact h1 i p hi
  · rw [stepLine_off, stepLine_props]
    by_cases hp : startsWithB (strB "property") (trimB l) = true
    · simp only [hp, if_true, propSizes, List.map_append, List.sum_append]
      simp [h2, propSizes]
    · simp only [hp, if_false]
      exact h2

theorem foldl_offsetsOk (lines : List (List ℕ)) :
    ∀ st : HeaderSt, offsetsOk st → offsetsOk (lines.foldl stepLine st) := by
  induction lines with
  | nil => intro st h; exact h
  | cons l ls ih =>
    intro st h
    exact ih (stepLine st l) (stepLine_offsetsOk st l h)

theorem initSt_offsetsOk : offsetsOk initSt := by
  constructor
  · intro i p hi; simp [initSt] at hi
  · rfl

theorem startsWithB_cons {p : ℕ} {ps s : List ℕ} (h : startsWithB (p :: ps) s = true) :
    ∃ bs, s = p :: bs ∧ startsWithB ps bs = true := by
  cases s with
  | nil => simp [startsWithB] at h
  | cons b bs =>
    simp [startsWithB, Bool.and_eq_true, decide_eq_true_iff] at h
    exact ⟨bs, by rw [h.1], h.2⟩

/-- **C4.** For the synthesized container `element vertex 3` with float
properties `x`, `y`, `z`, the header parser yields `recordCount = 3`,
`bytesPerRecord = 12`, offsets `x:0, y:4, z:8`; in general every
property line is assigned the running offset (the sum of the sizes of
the preceding properties) and `bytesPerRecord` is the final running
offset, with sizes `double → 8`, `uchar`/`char` → 1, `short`/`ushort`
→ 2, otherwise 4. -/
theorem header_offsets :
    (parseHeaderB exXYZ = .ok ⟨115,
      { vertexCount := some 3,
        props := [⟨some (strB "x"), some (strB "float"), 0⟩,
                  ⟨some (strB "y"), some (strB "float"), 4⟩,
                  ⟨some (strB "z"), some (strB "float"), 8⟩],
        runningOffset := 12, format := strB "binary_little_endian" }⟩) ∧
    (∀ lines : List (List ℕ),
      (∀ i p, ((lines.foldl stepLine initSt).props).get? i = some p →
        p.off = propSizes (((lines.foldl stepLine initSt).props).take i)) ∧
      (lines.foldl stepLine initSt).runningOffset
        = propSizes (lines.foldl stepLine initSt).props) ∧
    typeSize (some (strB "double")) = 8 ∧
    (typeSize (some (strB "uchar")) = 1 ∧ typeSize (some (strB "char")) = 1) ∧
    (typeSize (some (strB "short")) = 2 ∧ typeSize (some (strB "ushort")) = 2) ∧
    (∀ ty, ty ≠ some (strB "double") → ty ≠ some (strB "uchar") → ty ≠ some (strB "char") →
      ty ≠ some (strB "short") → ty ≠ some (strB "ushort") → typeSize ty = 4) := by
  refine ⟨by decide, fun lines => foldl_offsetsOk lines initSt initSt_offsetsOk,
    by decide, ⟨by decide, by decide⟩, ⟨by decide, by decide⟩, ?_⟩
  intro ty h1 h2 h3 h4 h5
  simp [typeSize, h1, h2, h3, h4, h5]

/-- Witness for `header_offsets`: the general offset law applied to the
concrete line list of the `x`/`y`/`z` header at index 2. -/
theorem header_offsets_witness :
    ((splitNL (strB "element vertex 3\nproperty float x\nproperty float y\nproperty float z")).foldl
        stepLine initSt).props.get? 2
      = some ⟨some (strB "z"), some (strB "float"), 8⟩ ∧
    (⟨some (strB "z"), some (strB "float"), 8⟩ : PropD).off
      = propSizes ((((splitNL (strB "element vertex 3\nproperty float x\nproperty float y\nproperty float z")).foldl
          stepLine initSt).props).take 2) :=
  ⟨by decide,
   (header_offsets.2.1 (splitNL (strB "element vertex 3\nproperty float x\nproperty float y\nproperty float z"))).1
     2 ⟨some (strB "z"), some (strB "float"), 8⟩ (by decide)⟩

theorem detectStep_splat (st : DetectSt) (l : List ℕ) :
    (detectStep st l).splatProperties = st.splatProperties ++
      (match propNameOfLine l with
       | none => []
       | some pn => if matchesSplatPattern pn then [pn] else []) := by
  by_cases hP : startsWithB (strB "property") (trimB l) = true
  · simp only [detectStep, propNameOfLine, hP, if_true]
    by_cases hE : startsWithB (strB "element vertex") (trimB l) = true <;>
      simp [hP, hE] <;> (repeat' split) <;> simp
  · simp [detectStep, propNameOfLine, hP]
    split <;> simp

theorem detectStep_all (st : DetectSt) (l : List ℕ) :
    (detectStep st l).allProperties
      = st.allProperties ++ (propNameOfLine l).toList := by
  by_cases hP : startsWithB (strB "property") (trimB l) = true
  · simp only [detectStep, propNameOfLine, hP, if_true]
    by_cases hE : startsWithB (strB "element vertex") (trimB l) = true <;>
      simp [hP, hE] <;> (repeat' split) <;> simp
  · simp [detectStep, propNameOfLine, hP]
    split <;> simp

theorem detect_fold_splat (lines : List (List ℕ)) :
    ∀ st : DetectSt, (lines.foldl detectStep st).splatProperties
      = st.splatProperties ++ (lines.filterMap propNameOfLine).filter matchesSplatPattern := by
  induction lines with
  | nil => intro st; simp
  | cons l ls ih =>
    intro st
    rw [List.foldl_cons, ih, detectStep_splat]
    cases hpn : propNameOfLine l with
    | none => simp [List.filterMap_cons, hpn]
    | some pn =>
      by_cases hm : matchesSplatPattern pn = true <;>
        simp [List.filterMap_cons, hpn, hm, List.filter_cons]

theorem detect_fold_all (lines : List (List ℕ)) :
    ∀ st : DetectSt, (lines.foldl detectStep st).allProperties
      = st.allProperties ++ lines.filterMap propNameOfLine := by
  induction lines with
  | nil => intro st; simp
  | cons l ls ih =>
    intro st
    rw [List.foldl_cons, ih, detectStep_all]
    cases hpn : propNameOfLine l <;> simp [List.filterMap_cons, hpn]

theorem decisive_matches {n : List ℕ} (h : isDecisiveSplatName n = true) :
    matchesSplatPattern n = true := by
  simp only [isDecisiveSplatName, Bool.or_eq_true, decide_eq_true_iff] at h
  simp only [matchesSplatPattern, Bool.or_eq_true, decide_eq_true_iff]
  tauto

/-- **C1.** For every parsed container, the classifier returns
`splat` iff some declared property name is decisive — exactly
`opacity`, or `scale_<digits>`, `rot_<digits>`, `f_dc_<digits>`;
the recorded `splatProperties` list is exactly the declared names
matching any of the six splat patterns (so `f_rest_<digits>` and
`sh_<digits>` are recorded but cannot by themselves cause a `splat`
classification); with no decisive match the result is `mesh`. -/
theorem detectType_splat_iff :
    ∀ bytes r, detectPLYType bytes = .ok r →
      ((r.type = PLYType.splat ↔ ∃ n ∈ propNamesOf bytes, isDecisiveSplatName n = true) ∧
       r.splatProperties = (propNamesOf bytes).filter matchesSplatPattern ∧
       ((¬ ∃ n ∈ propNamesOf bytes, isDecisiveSplatName n = true) → r.type = PLYType.mesh)) := by
  intro bytes r h
  unfold detectPLYType at h
  cases hf : findSub (strB "end_header") (bytes.take 8192) with
  | none => rw [hf] at h; exact absurd h (by simp)
  | some idx =>
    rw [hf] at h
    simp only [Except.ok.injEq] at h
    subst h
    have hnames : propNamesOf bytes
        = (splitNL ((bytes.take 8192).take idx)).filterMap propNameOfLine := by
      simp [propNamesOf, detectLines, hf]
    have hsplat := detect_fold_splat (splitNL ((bytes.take 8192).take idx)) detectInit
    rw [show detectInit.splatProperties = [] from rfl, List.nil_append, ← hnames] at hsplat
    have hiff : (((splitNL ((bytes.take 8192).take idx)).foldl detectStep detectInit).splatProperties.any
          (fun p => decide (p = strB "opacity")) ||
        ((splitNL ((bytes.take 8192).take idx)).foldl detectStep detectInit).splatProperties.any
          (matchDigitTail (strB "scale_")) ||
        ((splitNL ((bytes.take 8192).take idx)).foldl detectStep detectInit).splatProperties.any
          (matchDigitTail (strB "rot_")) ||
        ((splitNL ((bytes.take 8192).take idx)).foldl detectStep detectInit).splatProperties.any
          (matchDigitTail (strB "f_dc_"))) = true
        ↔ ∃ n ∈ propNamesOf bytes, isDecisiveSplatName n = true := by
      rw [hsplat]
      simp only [Bool.or_eq_true, List.any_eq_true, List.mem_filter, decide_eq_true_iff]
      constructor
      · rintro (((⟨n, ⟨hn, hm⟩, hd⟩ | ⟨n, ⟨hn, hm⟩, hd⟩) | ⟨n, ⟨hn, hm⟩, hd⟩) | ⟨n, ⟨hn, hm⟩, hd⟩) <;>
          refine ⟨n, hn, ?_⟩ <;>
          simp only [isDecisiveSplatName, Bool.or_eq_true, decide_eq_true_iff] <;> tauto
      · rintro ⟨n, hn, hd⟩
        have hm := decisive_matches hd
        simp only [isDecisiveSplatName, Bool.or_eq_true, decide_eq_true_iff] at hd
        rcases hd with ((hd | hd) | hd) | hd
        · exact Or.inl (Or.inl (Or.inl ⟨n, ⟨hn, hm⟩, hd⟩))
        · exact Or.inl (Or.inl (Or.inr ⟨n, ⟨hn, hm⟩, hd⟩))
        · exact Or.inl (Or.inr ⟨n, ⟨hn, hm⟩, hd⟩)
        · exact Or.inr ⟨n, ⟨hn, hm⟩, hd⟩
    refine ⟨?_, hsplat, ?_⟩
    · constructor
      · intro ht
        by_contra hno
        rw [← hiff] at hno
        simp only [Bool.not_eq_true] at hno
        rw [hno] at ht
        simp at ht
      · intro hex
        rw [← hiff] at hex
        simp [hex]
    · intro hno
      rw [← hiff] at hno
      simp only [Bool.not_eq_true] at hno
      simp [hno]

/-- Witness for `detectType_splat_iff`: the container declaring `x`,
`opacity`, `f_rest_0` classifies as `splat`, with both pattern-matching
names recorded. -/
theorem detectType_splat_iff_witness :
    detectPLYType exSplatHdr = .ok
      ⟨PLYType.splat, some 1, false, false, [strB "opacity", strB "f_rest_0"]⟩ ∧
    ((⟨PLYType.splat, some 1, false, false,
        [strB "opacity", strB "f_rest_0"]⟩ : PLYDetectionResult).type = PLYType.splat ↔
      ∃ n ∈ propNamesOf exSplatHdr, isDecisiveSplatName n = true) :=
  ⟨by decide, (detectType_splat_iff exSplatHdr _ (by decide)).1⟩

/-- **C10.** The header line loop of `parsePLYSplat` ignores element
boundaries: any `element` line other than `element vertex …` leaves the
parse state entirely unchanged (so a following `property` line is still
accumulated into the per-vertex stride and offset table), and for the
concrete two-element header `element vertex 2 (x,y,z float)` +
`element face 1 (q uchar)` the face element's property is assigned
offset 12 and the per-vertex stride becomes 13. -/
theorem element_agnostic_props :
    (∀ (st : HeaderSt) (l : List ℕ),
      startsWithB (strB "element") (trimB l) = true →
      startsWithB (strB "element vertex") (trimB l) = false →
      stepLine st l = st) ∧
    parseHeaderB exFace = .ok ⟨147,
      { vertexCount := some 2,
        props := [⟨some (strB "x"), some (strB "float"), 0⟩,
                  ⟨some (strB "y"), some (strB "float"), 4⟩,
                  ⟨some (strB "z"), some (strB "float"), 8⟩,
                  ⟨some (strB "q"), some (strB "uchar"), 12⟩],
        runningOffset := 13, format := strB "binary_little_endian" }⟩ := by
  constructor
  · intro st l hE hEV
    obtain ⟨bs, hbs, _⟩ := @startsWithB_cons 101 (strB "lement") (trimB l)
      (by rw [show (101 : ℕ) :: strB "lement" = strB "element" from by decide]; exact hE)
    have hF : startsWithB (strB "format") (trimB l) = false := by
      rw [hbs, show strB "format" = 102 :: strB "ormat" from by decide]
      simp [startsWithB]
    have hP : startsWithB (strB "property") (trimB l) = false := by
      rw [hbs, show strB "property" = 112 :: strB "roperty" from by decide]
      simp [startsWithB]
    simp [stepLine, hF, hEV, hP]
  · decide

/-- Witness for `element_agnostic_props`: the identity conclusion
applied to the concrete line `element face 1`. -/
theorem element_agnostic_props_witness :
    stepLine initSt (strB "element face 1") = initSt :=
  element_agnostic_props.1 initSt (strB "element face 1") (by decide) (by decide)

theorem mapE_cons_ok {α β : Type} {f : α → Except Err β} {x : α} {xs : List α}
    {ys : List β} (h : mapE f (x :: xs) = .ok ys) :
    ∃ y ys2, f x = .ok y ∧ mapE f xs = .ok ys2 ∧ ys = y :: ys2 := by
  simp only [mapE] at h
  cases hfx : f x with
  | error e => rw [hfx] at h; simp at h
  | ok y =>
    rw [hfx] at h
    cases hm : mapE f xs with
    | error e => rw [hm] at h; simp at h
    | ok ys2 =>
      rw [hm] at h
      simp only [Except.ok.injEq] at h
      exact ⟨y, ys2, rfl, rfl, h.symm⟩

theorem mapE_ok_get {α β : Type} {f : α → Except Err β} :
    ∀ {xs : List α} {ys : List β}, mapE f xs = .ok ys →
      ∀ {i : ℕ} {x : α}, xs.get? i = some x → ∃ y, ys.get? i = some y ∧ f x = .ok y := by
  intro xs
  induction xs with
  | nil => intro ys h i x hx; simp at hx
  | cons a as ih =>
    intro ys h i x hx
    obtain ⟨y, ys2, hfa, hm, rfl⟩ := mapE_cons_ok h
    cases i with
    | zero =>
      simp only [List.get?] at hx
      obtain rfl := Option.some.inj hx
      exact ⟨y, rfl, hfa⟩
    | succ n =>
      simp only [List.get?] at hx ⊢
      exact ih hm hx

theorem mapE_take {α β : Type} {f : α → Except Err β} :
    ∀ {xs : List α} {ys : List β}, mapE f xs = .ok ys →
      ∀ n, mapE f (xs.take n) = .ok (ys.take n) := by
  intro xs
  induction xs with
  | nil =>
    intro ys h n
    simp only [mapE, Except.ok.injEq] at h
    subst h
    simp [mapE]
  | cons a as ih =>
    intro ys h n
    obtain ⟨y, ys2, hfa, hm, rfl⟩ := mapE_cons_ok h
    cases n with
    | zero => simp [mapE]
    | succ m =>
      simp only [List.take_succ_cons, mapE, hfa, ih hm m]

theorem flatten_map_get {α β : Type} (g : α → List β) (k : ℕ)
    (hg : ∀ r, (g r).length = k) :
    ∀ (L : List α) (i j : ℕ), j < k →
      ((L.map g).flatten).get? (k * i + j) = (L.get? i).bind (fun r => (g r).get? j) := by
  intro L
  induction L with
  | nil => intro i j hj; simp
  | cons r L ih =>
    intro i j hj
    cases i with
    | zero =>
      simp only [List.map_cons, List.flatten_cons, Nat.mul_zero, Nat.zero_add]
      rw [List.get?_append (by rw [hg r]; exact hj)]
      simp
    | succ i =>
      simp only [List.map_cons, List.flatten_cons]
      rw [List.get?_append_right (by rw [hg r]; nlinarith)]
      have harith : k * (i + 1) + j - (g r).length = k * i + j := by
        rw [hg r]; ring_nf; omega
      rw [harith, ih i j hj]
      simp

theorem flatten_map_take {α β : Type} (g : α → List β) (k : ℕ)
    (hg : ∀ r, (g r).length = k) :
    ∀ (L : List α) (n : ℕ),
      (((L.take n).map g).flatten) = ((L.map g).flatten).take (k * n) := by
  intro L
  induction L with
  | nil => intro n; simp
  | cons r L ih =>
    intro n
    cases n with
    | zero => simp
    | succ m =>
      simp only [List.take_succ_cons, List.map_cons, List.flatten_cons, ih m]
      rw [List.take_append_eq_append_take]
      have h1 : (g r).length ≤ k * (m + 1) := by rw [hg r]; nlinarith
      rw [List.take_of_length_le h1]
      have harith : k * (m + 1) - (g r).length = k * m := by
        rw [hg r]; ring_nf; omega
      rw [harith]

theorem parsePLYSplat_ok {bytes : List ℕ} {cap : Option ℕ} {d : SplatData}
    (h : parsePLYSplat bytes cap = .ok d) :
    ∃ hd vc recs, parseHeaderB bytes = .ok hd ∧ hd.st.vertexCount = some vc ∧
      ¬ vc < 0 ∧ ¬ bytes.length < hd.headerEnd ∧
      mapE (decodeRec bytes hd.headerEnd hd.st.props hd.st.runningOffset)
        (List.range (actualCountJS vc.toNat cap)) = .ok recs ∧
      d = buildData (actualCountJS vc.toNat cap) recs := by
  unfold parsePLYSplat at h
  split at h
  · exact absurd h (by simp)
  next hd hh =>
    split at h
    · exact absurd h (by simp)
    next vc hvc =>
      split at h
      · exact absurd h (by simp)
      next hneg =>
        split at h
        · exact absurd h (by simp)
        next hlen =>
          cases hm : mapE (decodeRec bytes hd.headerEnd hd.st.props hd.st.runningOffset)
              (List.range (actualCountJS vc.toNat cap)) with
          | error e => rw [hm] at h; simp [Except.map] at h
          | ok recs =>
            rw [hm] at h
            simp only [Except.map, Except.ok.injEq] at h
            exact ⟨hd, vc, recs, hh, hvc, hneg, hlen, hm, h.symm⟩

theorem emap_ok_iff {α β : Type} {f : α → β} {m : Except Err α} {b : β} :
    m.map f = .ok b ↔ ∃ a, m = .ok a ∧ f a = b := by
  cases m <;> simp [Except.map]

theorem decodeRec_ok {bytes : List ℕ} {he : ℕ} {props : List PropD} {bpr i : ℕ}
    {rec : SplatRec} (h : decodeRec bytes he props bpr i = .ok rec) :
    ∃ vx vy vz s0 s1 s2 r0 r1 r2 r3 c0 c1 c2 vop,
      getFloat bytes he props (i * bpr) (strB "x") = .ok vx ∧
      getFloat bytes he props (i * bpr) (strB "y") = .ok vy ∧
      getFloat bytes he props (i * bpr) (strB "z") = .ok vz ∧
      getFloat bytes he props (i * bpr) (strB "scale_0") = .ok s0 ∧
      getFloat bytes he props (i * bpr) (strB "scale_1") = .ok s1 ∧
      getFloat bytes he props (i * bpr) (strB "scale_2") = .ok s2 ∧
      getFloat bytes he props (i * bpr) (strB "rot_0") = .ok r0 ∧
      getFloat bytes he props (i * bpr) (strB "rot_1") = .ok r1 ∧
      getFloat bytes he props (i * bpr) (strB "rot_2") = .ok r2 ∧
      getFloat bytes he props (i * bpr) (strB "rot_3") = .ok r3 ∧
      getFloat bytes he props (i * bpr) (strB "f_dc_0") = .ok c0 ∧
      getFloat bytes he props (i * bpr) (strB "f_dc_1") = .ok c1 ∧
      getFloat bytes he props (i * bpr) (strB "f_dc_2") = .ok c2 ∧
      getFloat bytes he props (i * bpr) (strB "opacity") = .ok vop ∧
      rec = mkRec vx vy vz s0 s1 s2 r0 r1 r2 r3 c0 c1 c2 vop := by
  simp only [decodeRec, emap_ok_iff] at h
  obtain ⟨t, hraw, hrec⟩ := h
  simp only [rawReads, ebind_ok_iff, Except.ok.injEq] at hraw
  obtain ⟨vx, hx, vy, hy, vz, hz, s0, hs0, s1, hs1, s2, hs2, r0, hr0, r1, hr1, r2, hr2,
    r3, hr3, c0, hc0, c1, hc1, c2, hc2, vop, hop, ht⟩ := hraw
  subst ht
  exact ⟨vx, vy, vz, s0, s1, s2, r0, r1, r2, r3, c0, c1, c2, vop,
    hx, hy, hz, hs0, hs1, hs2, hr0, hr1, hr2, hr3, hc0, hc1, hc2, hop, hrec.symm⟩

theorem getFloat_missing {bytes : List ℕ} {he : ℕ} {props : List PropD} {vOff : ℕ}
    {pname : List ℕ} (h : props.find? (fun p => p.name = some pname) = none) :
    getFloat bytes he props vOff pname = .ok (.fin 0) := by
  simp [getFloat, h]

theorem getFloat_found {bytes : List ℕ} {he : ℕ} {props : List PropD} {vOff : ℕ}
    {pname : List ℕ} {p : PropD}
    (h : props.find? (fun p => p.name = some pname) = some p)
    (hb : he + vOff + p.off + 4 ≤ bytes.length) :
    getFloat bytes he props vOff pname
      = .ok (decodeF32LE (bytes.getD (he + vOff + p.off) 0)
          (bytes.getD (he + vOff + p.off + 1) 0)
          (bytes.getD (he + vOff + p.off + 2) 0)
          (bytes.getD (he + vOff + p.off + 3) 0)) := by
  simp [getFloat, h, hb]

theorem getFloat_ok_inbounds {bytes : List ℕ} {he : ℕ} {props : List PropD} {vOff : ℕ}
    {pname : List ℕ} {v : F32} {p : PropD}
    (h : getFloat bytes he props vOff pname = .ok v)
    (hp : props.find? (fun q => q.name = some pname) = some p) :
    he + vOff + p.off + 4 ≤ bytes.length ∧
    v = decodeF32LE (bytes.getD (he + vOff + p.off) 0) (bytes.getD (he + vOff + p.off + 1) 0)
          (bytes.getD (he + vOff + p.off + 2) 0) (bytes.getD (he + vOff + p.off + 3) 0) := by
  simp only [getFloat, hp] at h
  split at h
  · next hb =>
    simp only [Except.ok.injEq] at h
    exact ⟨hb, h.symm⟩
  · exact absurd h (by simp)

theorem buildData_opacities_get {n : ℕ} {recs : List SplatRec} {i : ℕ} :
    (buildData n recs).opacities.get? i = (recs.get? i).map (fun r => r.op) := by
  simp [buildData, List.get?_map]

theorem buildData_positions_get {n : ℕ} {recs : List SplatRec} {i j : ℕ} (hj : j < 3) :
    (buildData n recs).positions.get? (3 * i + j)
      = (recs.get? i).bind (fun r => [r.px, r.py, r.pz].get? j) := by
  simp only [buildData]
  exact flatten_map_get (fun r => [r.px, r.py, r.pz]) 3 (fun r => rfl) recs i j hj

theorem buildData_scales_get {n : ℕ} {recs : List SplatRec} {i j : ℕ} (hj : j < 3) :
    (buildData n recs).scales.get? (3 * i + j)
      = (recs.get? i).bind (fun r => [r.sx, r.sy, r.sz].get? j) := by
  simp only [buildData]
  exact flatten_map_get (fun r => [r.sx, r.sy, r.sz]) 3 (fun r => rfl) recs i j hj

theorem buildData_rotations_get {n : ℕ} {recs : List SplatRec} {i j : ℕ} (hj : j < 4) :
    (buildData n recs).rotations.get? (4 * i + j)
      = (recs.get? i).bind (fun r => [r.rw, r.rx, r.ry, r.rz].get? j) := by
  simp only [buildData]
  exact flatten_map_get (fun r => [r.rw, r.rx, r.ry, r.rz]) 4 (fun r => rfl) recs i j hj

theorem buildData_colors_get {n : ℕ} {recs : List SplatRec} {i j : ℕ} (hj : j < 3) :
    (buildData n recs).colors.get? (3 * i + j)
      = (recs.get? i).bind (fun r => [r.cr, r.cg, r.cb].get? j) := by
  simp only [buildData]
  exact flatten_map_get (fun r => [r.cr, r.cg, r.cb]) 3 (fun r => rfl) recs i j hj

theorem decodeRec_of_raw {bytes : List ℕ} {he : ℕ} {props : List PropD} {bpr i : ℕ}
    {t : RawRec} (h : rawReads bytes he props bpr i = .ok t) :
    decodeRec bytes he props bpr i
      = .ok (mkRec t.vx t.vy t.vz t.s0 t.s1 t.s2 t.r0 t.r1 t.r2 t.r3 t.c0 t.c1 t.c2 t.vop) := by
  simp [decodeRec, h, Except.map]

theorem decodeRec_of_raw_err {bytes : List ℕ} {he : ℕ} {props : List PropD} {bpr i : ℕ}
    {e : Err} (h : rawReads bytes he props bpr i = .error e) :
    decodeRec bytes he props bpr i = .error e := by
  simp [decodeRec, h, Except.map]

theorem jsOr_fin_zero (x : ℝ) : jsOr (.fin x) (.fin 0) = .fin x := by
  by_cases h : x = 0
  · subst h; simp [jsOr]
  · simp [jsOr, h]

theorem jsOr_fin_one (x : ℝ) :
    jsOr (.fin x) (.fin 1) = if x = 0 then .fin 1 else .fin x := by
  by_cases h : x = 0
  · subst h; simp [jsOr]
  · simp [jsOr, h]

theorem toJSV_fin (n : ℤ) : toJSV (.fin n) = .fin (f32R n) := rfl

theorem sigmoidJS_fin (x : ℝ) :
    sigmoidJS (.fin x) = .fin (1 / (1 + Real.exp (-x))) := by
  have hne : (1 + Real.exp (-x)) ≠ 0 := by positivity
  simp [sigmoidJS, jneg, jexp, jadd, jdiv, hne]

theorem chanJS_fin (x : ℝ) :
    chanJS (.fin x) = .fin (max 0 (min 1 (0.5 + SH_C0 * x))) := by
  simp [chanJS, jmul, jadd, jmin, jmax]

theorem exp_fifty_large : (676 : ℝ) ≤ Real.exp 50 := by
  have h25 : (26 : ℝ) ≤ Real.exp 25 := by
    have := Real.add_one_le_exp (25 : ℝ)
    linarith
  have h50 : Real.exp 50 = Real.exp 25 * Real.exp 25 := by
    rw [← Real.exp_add]; norm_num
  nlinarith [Real.exp_pos (25 : ℝ)]

/-- **C2.** The decoded opacity is the logistic sigmoid
`1 / (1 + exp(-raw))` of the stored `opacity` field: in particular a
stored `0` gives `0.5`, a stored `50` gives a value within `0.01` of
`1`, a stored `-50` a value below `0.01`, and a layout with no
`opacity` property decodes to `0.5`. -/
theorem opacity_sigmoid :
    (∀ (bytes : List ℕ) (cap : Option ℕ) (hd : HeaderInfo) (d : SplatData) (i : ℕ) (n : ℤ),
      parseHeaderB bytes = .ok hd →
      parsePLYSplat bytes cap = .ok d →
      i < d.count →
      getFloat bytes hd.headerEnd hd.st.props (i * hd.st.runningOffset) (strB "opacity")
        = .ok (.fin n) →
      d.opacities.get? i = some (.fin (1 / (1 + Real.exp (-f32R n))))) ∧
    (∀ (bytes : List ℕ) (cap : Option ℕ) (hd : HeaderInfo) (d : SplatData) (i : ℕ),
      parseHeaderB bytes = .ok hd →
      parsePLYSplat bytes cap = .ok d →
      i < d.count →
      hd.st.props.find? (fun p => p.name = some (strB "opacity")) = none →
      d.opacities.get? i = some (.fin (1 / 2))) ∧
    (1 / (1 + Real.exp (-(0 : ℝ))) = 1 / 2) ∧
    (1 - 1 / 100 < 1 / (1 + Real.exp (-(50 : ℝ)))) ∧
    (1 / (1 + Real.exp (-(-50 : ℝ))) < 1 / 100) := by
  have key : ∀ (bytes : List ℕ) (cap : Option ℕ) (hd : HeaderInfo) (d : SplatData)
      (i : ℕ) (n : ℤ),
      parseHeaderB bytes = .ok hd →
      parsePLYSplat bytes cap = .ok d →
      i < d.count →
      getFloat bytes hd.headerEnd hd.st.props (i * hd.st.runningOffset) (strB "opacity")
        = .ok (.fin n) →
      d.opacities.get? i = some (.fin (1 / (1 + Real.exp (-f32R n)))) := by
    intro bytes cap hd d i n hhd hp hi hop
    obtain ⟨hd2, vc, recs, hh2, hvc, hneg, hlen, hm, hbuild⟩ := parsePLYSplat_ok hp
    rw [hhd] at hh2
    obtain rfl := Except.ok.inj hh2
    subst hbuild
    simp only [buildData] at hi
    have hrange : (List.range (actualCountJS vc.toNat cap)).get? i = some i :=
      List.get?_range hi
    obtain ⟨rec, hrecget, hdec⟩ := mapE_ok_get hm hrange
    obtain ⟨vx, vy, vz, s0, s1, s2, r0, r1, r2, r3, c0, c1, c2, vop,
      _, _, _, _, _, _, _, _, _, _, _, _, _, hopx, hreceq⟩ := decodeRec_ok hdec
    rw [hop] at hopx
    obtain rfl := (Except.ok.inj hopx).symm
    rw [buildData_opacities_get, hrecget]
    have hrop : rec.op = sigmoidJS (jsOr (.fin (f32R n)) (.fin 0)) := by rw [hreceq]; rfl
    rw [jsOr_fin_zero, sigmoidJS_fin] at hrop
    simp [hrop]
  refine ⟨key, ?_, by norm_num [Real.exp_zero], ?_, ?_⟩
  · intro bytes cap hd d i hhd hp hi hmiss
    have h0 := key bytes cap hd d i 0 hhd hp hi (getFloat_missing hmiss)
    rw [h0]
    norm_num [Real.exp_zero, f32R]
  · have hE : Real.exp (-(50 : ℝ)) = (Real.exp 50)⁻¹ := Real.exp_neg 50
    have h676 := exp_fifty_large
    have hEpos := Real.exp_pos (-(50 : ℝ))
    have hEsmall : Real.exp (-(50 : ℝ)) ≤ 1 / 676 := by
      rw [hE]
      rw [inv_le_iff_one_le_mul₀ (by positivity)]
      rw [div_mul_eq_mul_div, le_div_iff (by norm_num)]
      nlinarith
    have hden : (0 : ℝ) < 1 + Real.exp (-(50 : ℝ)) := by positivity
    rw [lt_div_iff hden]
    nlinarith
  · have h676 := exp_fifty_large
    have hden : (0 : ℝ) < 1 + Real.exp (-(-50 : ℝ)) := by positivity
    rw [div_lt_div_iff hden (by norm_num)]
    have : Real.exp (-(-50 : ℝ)) = Real.exp 50 := by norm_num
    nlinarith

theorem parse_eval (vc : ℤ) {bytes : List ℕ} {cap : Option ℕ} {he : ℕ} {st : HeaderSt}
    {recs : List SplatRec}
    (hdr : parseHeaderB bytes = .ok ⟨he, st⟩)
    (hvc : st.vertexCount = some vc)
    (hneg : ¬ vc < 0)
    (hlen : ¬ bytes.length < he)
    (hm : mapE (decodeRec bytes he st.props st.runningOffset)
        (List.range (actualCountJS vc.toNat cap)) = .ok recs) :
    parsePLYSplat bytes cap = .ok (buildData (actualCountJS vc.toNat cap) recs) := by
  unfold parsePLYSplat
  rw [hdr]
  simp only [hvc]
  rw [if_neg hneg, if_neg hlen, hm]
  simp [Except.map]

theorem parse_exOp : parsePLYSplat exOp none = .ok (buildData 1 [zeroRec]) := by
  have hraw : rawReads exOp 87 [⟨some (strB "opacity"), some (strB "float"), 0⟩] 4 0
      = .ok zeroRaw := by decide
  have hrec : decodeRec exOp 87 [⟨some (strB "opacity"), some (strB "float"), 0⟩] 4 0
      = .ok zeroRec := decodeRec_of_raw hraw
  have hm : mapE (decodeRec exOp 87 [⟨some (strB "opacity"), some (strB "float"), 0⟩] 4)
      (List.range (actualCountJS (1 : ℤ).toNat none)) = .ok [zeroRec] := by
    rw [show actualCountJS (1 : ℤ).toNat none = 1 from rfl,
      show List.range 1 = [0] from rfl]
    simp [mapE, hrec]
  have hdr : parseHeaderB exOp = .ok ⟨87,
      ⟨some 1, [⟨some (strB "opacity"), some (strB "float"), 0⟩], 4,
        strB "binary_little_endian"⟩⟩ := by decide
  exact parse_eval 1 hdr (by decide) (by decide) (by decide) hm

/-- Witness for `opacity_sigmoid`: the container storing raw opacity
`0` decodes record 0's opacity to `sigmoid(0)`. -/
theorem opacity_sigmoid_witness :
    parsePLYSplat exOp none = .ok (buildData 1 [zeroRec]) ∧
    (buildData 1 [zeroRec]).opacities.get? 0
      = some (.fin (1 / (1 + Real.exp (-f32R 0)))) := by
  refine ⟨parse_exOp, ?_⟩
  exact opacity_sigmoid.1 exOp none
    ⟨87, ⟨some 1, [⟨some (strB "opacity"), some (strB "float"), 0⟩], 4,
      strB "binary_little_endian"⟩⟩
    (buildData 1 [zeroRec]) 0 0 (by decide) parse_exOp (by norm_num [buildData]) (by decide)

theorem f32R_eq_zero {n : ℤ} : f32R n = 0 ↔ n = 0 := by
  simp [f32R, div_eq_zero_iff]

theorem record_at {bytes : List ℕ} {cap : Option ℕ} {hd : HeaderInfo} {d : SplatData}
    {i : ℕ} (hhd : parseHeaderB bytes = .ok hd)
    (hp : parsePLYSplat bytes cap = .ok d) (hi : i < d.count) :
    ∃ rec : SplatRec,
      decodeRec bytes hd.headerEnd hd.st.props hd.st.runningOffset i = .ok rec ∧
      (∀ j, j < 3 → d.positions.get? (3 * i + j) = [rec.px, rec.py, rec.pz].get? j) ∧
      (∀ j, j < 3 → d.scales.get? (3 * i + j) = [rec.sx, rec.sy, rec.sz].get? j) ∧
      (∀ j, j < 4 → d.rotations.get? (4 * i + j) = [rec.rw, rec.rx, rec.ry, rec.rz].get? j) ∧
      (∀ j, j < 3 → d.colors.get? (3 * i + j) = [rec.cr, rec.cg, rec.cb].get? j) ∧
      d.opacities.get? i = some rec.op := by
  obtain ⟨hd2, vc, recs, hh2, hvc, hneg, hlen, hm, hbuild⟩ := parsePLYSplat_ok hp
  rw [hhd] at hh2
  obtain rfl := Except.ok.inj hh2
  subst hbuild
  simp only [buildData] at hi
  have hrange : (List.range (actualCountJS vc.toNat cap)).get? i = some i :=
    List.get?_range hi
  obtain ⟨rec, hrecget, hdec⟩ := mapE_ok_get hm hrange
  refine ⟨rec, hdec, ?_, ?_, ?_, ?_, ?_⟩
  · intro j hj; rw [buildData_positions_get hj, hrecget]; rfl
  · intro j hj; rw [buildData_scales_get hj, hrecget]; rfl
  · intro j hj; rw [buildData_rotations_get hj, hrecget]; rfl
  · intro j hj; rw [buildData_colors_get hj, hrecget]; rfl
  · rw [buildData_opacities_get, hrecget]; rfl

theorem parse_exRot0 : parsePLYSplat exRot0 none = .ok (buildData 1 [zeroRec]) := by
  have hraw : rawReads exRot0 85 [⟨some (strB "rot_0"), some (strB "float"), 0⟩] 4 0
      = .ok zeroRaw := by decide
  have hrec : decodeRec exRot0 85 [⟨some (strB "rot_0"), some (strB "float"), 0⟩] 4 0
      = .ok zeroRec := decodeRec_of_raw hraw
  have hm : mapE (decodeRec exRot0 85 [⟨some (strB "rot_0"), some (strB "float"), 0⟩] 4)
      (List.range (actualCountJS (1 : ℤ).toNat none)) = .ok [zeroRec] := by
    rw [show actualCountJS (1 : ℤ).toNat none = 1 from rfl,
      show List.range 1 = [0] from rfl]
    simp [mapE, hrec]
  have hdr : parseHeaderB exRot0 = .ok ⟨85,
      ⟨some 1, [⟨some (strB "rot_0"), some (strB "float"), 0⟩], 4,
        strB "binary_little_endian"⟩⟩ := by decide
  exact parse_eval 1 hdr (by decide) (by decide) (by decide) hm

/-- Counterexample to **C3.** The container `exRot0` declares `rot_0`
and stores the float `0.0` in it (the four payload bytes decode to
value `0`), yet the decoded quaternion `w` component is `1`, not the
stored `0`: the JS idiom `getFloat(...) || 1` treats a present zero
like a missing field. -/
theorem rot0_zero_cex :
    parsePLYSplat exRot0 none = .ok (buildData 1 [zeroRec]) ∧
    decodeF32LE (exRot0.getD 85 0) (exRot0.getD 86 0) (exRot0.getD 87 0)
      (exRot0.getD 88 0) = .fin 0 ∧
    (buildData 1 [zeroRec]).rotations.get? 0 = some (.fin 1) ∧
    JSV.fin (1 : ℝ) ≠ JSV.fin (f32R 0) := by
  refine ⟨parse_exRot0, by decide, ?_, by simp [f32R]⟩
  simp [buildData, zeroRec, mkRec, toJSV, jsOr, f32R]

/-- **C3 (amended).** When the layout declares `rot_0..rot_3`, the
decoded orientation takes each stored 4-byte float in order as
quaternion `(w,x,y,z)` — EXCEPT that a stored `rot_0` equal to `0`
decodes to the identity default `1` (the `|| 1` falsy default); missing
components take their identity value `(1,0,0,0)`. -/
theorem rotation_decode_amended :
    ∀ (bytes : List ℕ) (cap : Option ℕ) (hd : HeaderInfo) (d : SplatData) (i : ℕ),
      parseHeaderB bytes = .ok hd →
      parsePLYSplat bytes cap = .ok d →
      i < d.count →
      ((∀ n : ℤ,
        getFloat bytes hd.headerEnd hd.st.props (i * hd.st.runningOffset) (strB "rot_0")
          = .ok (.fin n) →
        d.rotations.get? (4 * i)
          = some (if n = 0 then .fin 1 else .fin (f32R n))) ∧
      (∀ n : ℤ,
        getFloat bytes hd.headerEnd hd.st.props (i * hd.st.runningOffset) (strB "rot_1")
          = .ok (.fin n) →
        d.rotations.get? (4 * i + 1) = some (.fin (f32R n))) ∧
      (∀ n : ℤ,
        getFloat bytes hd.headerEnd hd.st.props (i * hd.st.runningOffset) (strB "rot_2")
          = .ok (.fin n) →
        d.rotations.get? (4 * i + 2) = some (.fin (f32R n))) ∧
      (∀ n : ℤ,
        getFloat bytes hd.headerEnd hd.st.props (i * hd.st.runningOffset) (strB "rot_3")
          = .ok (.fin n) →
        d.rotations.get? (4 * i + 3) = some (.fin (f32R n))) ∧
      (hd.st.props.find? (fun p => p.name = some (strB "rot_0")) = none →
        d.rotations.get? (4 * i) = some (.fin 1)) ∧
      (hd.st.props.find? (fun p => p.name = some (strB "rot_1")) = none →
        d.rotations.get? (4 * i + 1) = some (.fin 0)) ∧
      (hd.st.props.find? (fun p => p.name = some (strB "rot_2")) = none →
        d.rotations.get? (4 * i + 2) = some (.fin 0)) ∧
      (hd.st.props.find? (fun p => p.name = some (strB "rot_3")) = none →
        d.rotations.get? (4 * i + 3) = some (.fin 0))) := by
  intro bytes cap hd d i hhd hp hi
  obtain ⟨rec, hdec, hpos, hsc, hrot, hcol, hopq⟩ := record_at hhd hp hi
  obtain ⟨vx, vy, vz, s0, s1, s2, r0, r1, r2, r3, c0, c1, c2, vop,
    hx, hy, hz, hs0, hs1, hs2, hr0, hr1, hr2, hr3, hc0, hc1, hc2, hopac, hreceq⟩ :=
    decodeRec_ok hdec
  have hw := hrot 0 (by norm_num)
  have hrx := hrot 1 (by norm_num)
  have hry := hrot 2 (by norm_num)
  have hrz := hrot 3 (by norm_num)
  refine ⟨?_, ?_, ?_, ?_, ?_, ?_, ?_, ?_⟩
  · intro n hn
    rw [hn] at hr0
    obtain rfl := (Except.ok.inj hr0).symm
    have hfield : rec.rw = jsOr (.fin (f32R n)) (.fin 1) := by rw [hreceq]; rfl
    rw [jsOr_fin_one] at hfield
    show d.rotations.get? (4 * i + 0) = _
    rw [hw]
    by_cases hn0 : n = 0 <;> simp [hfield, hn0, f32R_eq_zero, f32R]
  · intro n hn
    rw [hn] at hr1
    obtain rfl := (Except.ok.inj hr1).symm
    have hfield : rec.rx = jsOr (.fin (f32R n)) (.fin 0) := by rw [hreceq]; rfl
    rw [jsOr_fin_zero] at hfield
    rw [hrx]
    simp [hfield]
  · intro n hn
    rw [hn] at hr2
    obtain rfl := (Except.ok.inj hr2).symm
    have hfield : rec.ry = jsOr (.fin (f32R n)) (.fin 0) := by rw [hreceq]; rfl
    rw [jsOr_fin_zero] at hfield
    rw [hry]
    simp [hfield]
  · intro n hn
    rw [hn] at hr3
    obtain rfl := (Except.ok.inj hr3).symm
    have hfield : rec.rz = jsOr (.fin (f32R n)) (.fin 0) := by rw [hreceq]; rfl
    rw [jsOr_fin_zero] at hfield
    rw [hrz]
    simp [hfield]
  · intro hmiss
    rw [getFloat_missing hmiss] at hr0
    obtain rfl := (Except.ok.inj hr0).symm
    have hfield : rec.rw = jsOr (.fin (f32R 0)) (.fin 1) := by rw [hreceq]; rfl
    show d.rotations.get? (4 * i + 0) = _
    rw [hw]
    simp [hfield, jsOr, f32R]
  · intro hmiss
    rw [getFloat_missing hmiss] at hr1
    obtain rfl := (Except.ok.inj hr1).symm
    have hfield : rec.rx = jsOr (.fin (f32R 0)) (.fin 0) := by rw [hreceq]; rfl
    rw [hrx]
    simp [hfield, jsOr, f32R]
  · intro hmiss
    rw [getFloat_missing hmiss] at hr2
    obtain rfl := (Except.ok.inj hr2).symm
    have hfield : rec.ry = jsOr (.fin (f32R 0)) (.fin 0) := by rw [hreceq]; rfl
    rw [hry]
    simp [hfield, jsOr, f32R]
  · intro hmiss
    rw [getFloat_missing hmiss] at hr3
    obtain rfl := (Except.ok.inj hr3).symm
    have hfield : rec.rz = jsOr (.fin (f32R 0)) (.fin 0) := by rw [hreceq]; rfl
    rw [hrz]
    simp [hfield, jsOr, f32R]

theorem parse_exRot2 : parsePLYSplat exRot2 none = .ok (buildData 1 [rot2Rec]) := by
  have hraw : rawReads exRot2 106
      [⟨some (strB "rot_0"), some (strB "float"), 0⟩,
       ⟨some (strB "rot_1"), some (strB "float"), 4⟩] 8 0
      = .ok ⟨.fin 0, .fin 0, .fin 0, .fin 0, .fin 0, .fin 0,
          .fin (3 * 2 ^ 148), .fin (2 ^ 150), .fin 0, .fin 0,
          .fin 0, .fin 0, .fin 0, .fin 0⟩ := by decide
  have hrec : decodeRec exRot2 106
      [⟨some (strB "rot_0"), some (strB "float"), 0⟩,
       ⟨some (strB "rot_1"), some (strB "float"), 4⟩] 8 0
      = .ok rot2Rec := decodeRec_of_raw hraw
  have hm : mapE (decodeRec exRot2 106
      [⟨some (strB "rot_0"), some (strB "float"), 0⟩,
       ⟨some (strB "rot_1"), some (strB "float"), 4⟩] 8)
      (List.range (actualCountJS (1 : ℤ).toNat none)) = .ok [rot2Rec] := by
    rw [show actualCountJS (1 : ℤ).toNat none = 1 from rfl,
      show List.range 1 = [0] from rfl]
    simp [mapE, hrec]
  have hdr : parseHeaderB exRot2 = .ok ⟨106,
      ⟨some 1, [⟨some (strB "rot_0"), some (strB "float"), 0⟩,
        ⟨some (strB "rot_1"), some (strB "float"), 4⟩], 8,
        strB "binary_little_endian"⟩⟩ := by decide
  exact parse_eval 1 hdr (by decide) (by decide) (by decide) hm

/-- Witness for `rotation_decode_amended`: `rot_0 = 1.5` decodes to
`w = 1.5`, `rot_1 = 2.0` to `x = 2.0`, and the absent `rot_2` to the
identity component `0`. -/
theorem rotation_decode_amended_witness :
    parsePLYSplat exRot2 none = .ok (buildData 1 [rot2Rec]) ∧
    (buildData 1 [rot2Rec]).rotations.get? 0
      = some (if (3 * 2 ^ 148 : ℤ) = 0 then JSV.fin 1 else .fin (f32R (3 * 2 ^ 148))) ∧
    (buildData 1 [rot2Rec]).rotations.get? 1 = some (.fin (f32R (2 ^ 150))) ∧
    (buildData 1 [rot2Rec]).rotations.get? 2 = some (.fin 0) := by
  have hhd : parseHeaderB exRot2 = .ok ⟨106,
      ⟨some 1, [⟨some (strB "rot_0"), some (strB "float"), 0⟩,
        ⟨some (strB "rot_1"), some (strB "float"), 4⟩], 8,
        strB "binary_little_endian"⟩⟩ := by decide
  have hp := parse_exRot2
  have hcnt : 0 < (buildData 1 [rot2Rec]).count := by norm_num [buildData]
  obtain ⟨h1, h2, h3, h4, h5, h6, h7, h8⟩ :=
    rotation_decode_amended exRot2 none _ _ 0 hhd hp hcnt
  exact ⟨hp, h1 (3 * 2 ^ 148) (by decide), h2 (2 ^ 150) (by decide), h7 (by decide)⟩

theorem exThree_recs (i : ℕ) (hi : i < 3) :
    decodeRec exThree 81 [⟨some (strB "x"), some (strB "float"), 0⟩] 4 i
      = .ok zeroRec := by
  have h0 : rawReads exThree 81 [⟨some (strB "x"), some (strB "float"), 0⟩] 4 i
      = .ok zeroRaw := by
    interval_cases i <;> decide
  exact decodeRec_of_raw h0

theorem parse_exThree_with (cap : Option ℕ) (n : ℕ)
    (hn : actualCountJS (3 : ℤ).toNat cap = n) (hn3 : n ≤ 3) :
    parsePLYSplat exThree cap = .ok (buildData n (List.replicate n zeroRec)) := by
  have hdr : parseHeaderB exThree = .ok ⟨81,
      ⟨some 3, [⟨some (strB "x"), some (strB "float"), 0⟩], 4,
        strB "binary_little_endian"⟩⟩ := by decide
  have hm : mapE (decodeRec exThree 81 [⟨some (strB "x"), some (strB "float"), 0⟩] 4)
      (List.range (actualCountJS (3 : ℤ).toNat cap)) = .ok (List.replicate n zeroRec) := by
    rw [hn]
    interval_cases n <;>
      simp [mapE, List.range_succ, exThree_recs 0 (by norm_num),
        exThree_recs 1 (by norm_num), exThree_recs 2 (by norm_num), List.replicate]
  have := parse_eval 3 hdr (by decide) (by decide) (by decide) hm
  rwa [hn] at this

/-- Counterexample to **C5.** With `recordCount = 3` and `maxPoints = 0`
the decoder returns all 3 records, not `min(3, 0) = 0`: the JS
conditional `maxPoints ? … : vertexCount` treats the cap `0` as falsy
and ignores it. -/
theorem maxPoints_zero_cex :
    parsePLYSplat exThree (some 0) = .ok (buildData 3 [zeroRec, zeroRec, zeroRec]) ∧
    (buildData 3 [zeroRec, zeroRec, zeroRec]).count = 3 ∧
    (3 : ℕ) ≠ min 3 0 := by
  refine ⟨?_, rfl, by norm_num⟩
  have := parse_exThree_with (some 0) 3 rfl (le_refl 3)
  simpa [List.replicate] using this

/-- **C5 (amended).** The decoded `count` is `actualCount`: for a
PROVIDED NONZERO cap it is `min(recordCount, maxPoints)` as the claim
states, but a cap of `0` is falsy in JS and is ignored (count =
recordCount); absent cap gives `recordCount`.  The capped decode's
buffers are exactly the prefix of the uncapped decode's buffers. -/
theorem count_cap_amended :
    (∀ (bytes : List ℕ) (cap : Option ℕ) (hd : HeaderInfo) (d : SplatData) (vc : ℤ),
      parseHeaderB bytes = .ok hd →
      hd.st.vertexCount = some vc →
      parsePLYSplat bytes cap = .ok d →
      d.count = actualCountJS vc.toNat cap) ∧
    (∀ n m : ℕ, m ≠ 0 → actualCountJS n (some m) = min n m) ∧
    (∀ n : ℕ, actualCountJS n none = n) ∧
    (∀ n : ℕ, actualCountJS n (some 0) = n) ∧
    (∀ (bytes : List ℕ) (cap : Option ℕ) (d dfull : SplatData),
      parsePLYSplat bytes cap = .ok d →
      parsePLYSplat bytes none = .ok dfull →
      d.positions = dfull.positions.take (3 * d.count) ∧
      d.scales = dfull.scales.take (3 * d.count) ∧
      d.rotations = dfull.rotations.take (4 * d.count) ∧
      d.colors = dfull.colors.take (3 * d.count) ∧
      d.opacities = dfull.opacities.take d.count) := by
  refine ⟨?_, ?_, fun n => rfl, fun n => rfl, ?_⟩
  · intro bytes cap hd d vc hhd hvc hp
    obtain ⟨hd2, vc2, recs, hh2, hvc2, hneg, hlen, hm, hbuild⟩ := parsePLYSplat_ok hp
    rw [hhd] at hh2
    obtain rfl := Except.ok.inj hh2
    rw [hvc] at hvc2
    obtain rfl := Option.some.inj hvc2
    subst hbuild
    rfl
  · intro n m hm
    simp [actualCountJS, hm]
  · intro bytes cap d dfull hp hpfull
    obtain ⟨hd, vc, recs, hh, hvc, hneg, hlen, hm, hbuild⟩ := parsePLYSplat_ok hp
    obtain ⟨hd2, vc2, recsN, hh2, hvc2, hneg2, hlen2, hmN, hbuildN⟩ := parsePLYSplat_ok hpfull
    rw [hh] at hh2
    obtain rfl := Except.ok.inj hh2
    rw [hvc] at hvc2
    obtain rfl := Option.some.inj hvc2
    subst hbuild
    subst hbuildN
    have hle : actualCountJS vc.toNat cap ≤ actualCountJS vc.toNat none := by
      cases cap with
      | none => exact le_refl _
      | some m =>
        by_cases hm0 : m = 0
        · subst hm0; exact le_refl _
        · simp [actualCountJS, hm0]
    have htake := mapE_take hmN (actualCountJS vc.toNat cap)
    rw [List.take_range, min_eq_left hle] at htake
    rw [htake] at hm
    obtain rfl := Except.ok.inj hm
    have hcnt : (buildData (actualCountJS vc.toNat cap)
        (recsN.take (actualCountJS vc.toNat cap))).count
        = actualCountJS vc.toNat cap := rfl
    rw [hcnt]
    refine ⟨?_, ?_, ?_, ?_, ?_⟩
    · simp only [buildData]
      exact flatten_map_take (fun r : SplatRec => [r.px, r.py, r.pz]) 3
        (fun r => rfl) recsN _
    · simp only [buildData]
      exact flatten_map_take (fun r : SplatRec => [r.sx, r.sy, r.sz]) 3
        (fun r => rfl) recsN _
    · simp only [buildData]
      exact flatten_map_take (fun r : SplatRec => [r.rw, r.rx, r.ry, r.rz]) 4
        (fun r => rfl) recsN _
    · simp only [buildData]
      exact flatten_map_take (fun r : SplatRec => [r.cr, r.cg, r.cb]) 3
        (fun r => rfl) recsN _
    · simp only [buildData]
      rw [List.map_take]

/-- Witness for `count_cap_amended`: capping the 3-record container at
2 yields count `min 3 2 = 2` and prefix buffers of the full decode. -/
theorem count_cap_amended_witness :
    parsePLYSplat exThree (some 2) = .ok (buildData 2 [zeroRec, zeroRec]) ∧
    (buildData 2 [zeroRec, zeroRec]).count = actualCountJS (3 : ℤ).toNat (some 2) ∧
    actualCountJS 3 (some 2) = min 3 2 ∧
    (buildData 2 [zeroRec, zeroRec]).positions
      = (buildData 3 [zeroRec, zeroRec, zeroRec]).positions.take
          (3 * (buildData 2 [zeroRec, zeroRec]).count) ∧
    (buildData 2 [zeroRec, zeroRec]).opacities
      = (buildData 3 [zeroRec, zeroRec, zeroRec]).opacities.take
          (buildData 2 [zeroRec, zeroRec]).count := by
  have hp2 : parsePLYSplat exThree (some 2) = .ok (buildData 2 [zeroRec, zeroRec]) := by
    have := parse_exThree_with (some 2) 2 rfl (by norm_num)
    simpa [List.replicate] using this
  have hpf : parsePLYSplat exThree none = .ok (buildData 3 [zeroRec, zeroRec, zeroRec]) := by
    have := parse_exThree_with none 3 rfl (le_refl 3)
    simpa [List.replicate] using this
  have hdr : parseHeaderB exThree = .ok ⟨81,
      ⟨some 3, [⟨some (strB "x"), some (strB "float"), 0⟩], 4,
        strB "binary_little_endian"⟩⟩ := by decide
  have hcc := count_cap_amended.1 exThree (some 2) _ _ 3 hdr (by decide) hp2
  have hpre := count_cap_amended.2.2.2.2 exThree (some 2) _ _ hp2 hpf
  exact ⟨hp2, hcc, count_cap_amended.2.1 3 2 (by norm_num), hpre.1, hpre.2.2.2.2⟩

theorem parse_eval_err (vc : ℤ) {bytes : List ℕ} {cap : Option ℕ} {he : ℕ}
    {st : HeaderSt} {e : Err}
    (hdr : parseHeaderB bytes = .ok ⟨he, st⟩)
    (hvc : st.vertexCount = some vc)
    (hneg : ¬ vc < 0)
    (hlen : ¬ bytes.length < he)
    (hm : mapE (decodeRec bytes he st.props st.runningOffset)
        (List.range (actualCountJS vc.toNat cap)) = .error e) :
    parsePLYSplat bytes cap = .error e := by
  unfold parsePLYSplat
  rw [hdr]
  simp only [hvc]
  rw [if_neg hneg, if_neg hlen, hm]
  simp [Except.map]

theorem parse_exFoo : parsePLYSplat exFoo none = .ok (buildData 2 [zeroRec, zeroRec]) := by
  have hraw0 : rawReads exFoo 83 [⟨some (strB "foo"), some (strB "float"), 0⟩] 4 0
      = .ok zeroRaw := by decide
  have hraw1 : rawReads exFoo 83 [⟨some (strB "foo"), some (strB "float"), 0⟩] 4 1
      = .ok zeroRaw := by decide
  have hrec0 : decodeRec exFoo 83 [⟨some (strB "foo"), some (strB "float"), 0⟩] 4 0
      = .ok zeroRec := decodeRec_of_raw hraw0
  have hrec1 : decodeRec exFoo 83 [⟨some (strB "foo"), some (strB "float"), 0⟩] 4 1
      = .ok zeroRec := decodeRec_of_raw hraw1
  have hm : mapE (decodeRec exFoo 83 [⟨some (strB "foo"), some (strB "float"), 0⟩] 4)
      (List.range (actualCountJS (2 : ℤ).toNat none)) = .ok [zeroRec, zeroRec] := by
    rw [show actualCountJS (2 : ℤ).toNat none = 2 from rfl,
      show List.range 2 = [0, 1] from rfl]
    simp [mapE, hrec0, hrec1]
  have hdr : parseHeaderB exFoo = .ok ⟨83,
      ⟨some 2, [⟨some (strB "foo"), some (strB "float"), 0⟩], 4,
        strB "binary_little_endian"⟩⟩ := by decide
  exact parse_eval 2 hdr (by decide) (by decide) (by decide) hm

/-- Counterexample to **C6.** The container `exFoo` declares 2 records
of 4 bytes each, starting at data offset 83, but the buffer holds no
payload at all (`exFoo.length = 83 < 83 + 2·4`).  The decoder does not
fail — there is no truncation check; it returns a full 2-record result
(the declared property `foo` is never read, so no out-of-bounds read
occurs either). -/
theorem truncated_ok_cex :
    parsePLYSplat exFoo none = .ok (buildData 2 [zeroRec, zeroRec]) ∧
    parseHeaderB exFoo = .ok ⟨83,
      ⟨some 2, [⟨some (strB "foo"), some (strB "float"), 0⟩], 4,
        strB "binary_little_endian"⟩⟩ ∧
    exFoo.length < 83 + 2 * 4 ∧
    (buildData 2 [zeroRec, zeroRec]).count = 2 :=
  ⟨parse_exFoo, by decide, by decide, rfl⟩

/-- **C6 (amended).** The decoder performs no upfront truncation check
and raises no dedicated `TruncatedDataError`.  Bounds are enforced only
on the individual reads of recognized fields: a read that succeeds is
always in bounds, a truncated buffer whose missing bytes ARE read fails
with a `RangeError`, and a truncated buffer whose missing bytes are
never read decodes successfully to a full-count result of defaults. -/
theorem truncated_reads_amended :
    (∀ (bytes : List ℕ) (he : ℕ) (props : List PropD) (vOff : ℕ) (pname : List ℕ)
        (v : F32) (p : PropD),
      getFloat bytes he props vOff pname = .ok v →
      props.find? (fun q => q.name = some pname) = some p →
      he + vOff + p.off + 4 ≤ bytes.length) ∧
    parsePLYSplat exTrunc none = .error .rangeError ∧
    (parsePLYSplat exFoo none = .ok (buildData 2 [zeroRec, zeroRec]) ∧
      exFoo.length < 83 + 2 * 4) := by
  refine ⟨?_, ?_, parse_exFoo, by decide⟩
  · intro bytes he props vOff pname v p h hp
    exact (getFloat_ok_inbounds h hp).1
  · have hraw : rawReads exTrunc 81 [⟨some (strB "x"), some (strB "float"), 0⟩] 4 0
        = .error .rangeError := by decide
    have hrec : decodeRec exTrunc 81 [⟨some (strB "x"), some (strB "float"), 0⟩] 4 0
        = .error .rangeError := decodeRec_of_raw_err hraw
    have hm : mapE (decodeRec exTrunc 81 [⟨some (strB "x"), some (strB "float"), 0⟩] 4)
        (List.range (actualCountJS (1 : ℤ).toNat none)) = .error .rangeError := by
      rw [show actualCountJS (1 : ℤ).toNat none = 1 from rfl,
        show List.range 1 = [0] from rfl]
      simp [mapE, hrec]
    have hdr : parseHeaderB exTrunc = .ok ⟨81,
        ⟨some 1, [⟨some (strB "x"), some (strB "float"), 0⟩], 4,
          strB "binary_little_endian"⟩⟩ := by decide
    exact parse_eval_err 1 hdr (by decide) (by decide) (by decide) hm

/-- Witness for `truncated_reads_amended`: the successful `opacity`
read of the well-formed container `exOp` is in bounds. -/
theorem truncated_reads_amended_witness :
    (87 : ℕ) + 0 + (⟨some (strB "opacity"), some (strB "float"), 0⟩ : PropD).off + 4
      ≤ exOp.length :=
  truncated_reads_amended.1 exOp 87 [⟨some (strB "opacity"), some (strB "float"), 0⟩]
    0 (strB "opacity") (.fin 0) ⟨some (strB "opacity"), some (strB "float"), 0⟩
    (by decide) (by decide)

theorem parse_exBig : parsePLYSplat exBig none = .ok (buildData 1 [oneXRec]) := by
  have hraw : rawReads exBig 78 [⟨some (strB "x"), some (strB "float"), 0⟩] 4 0
      = .ok ⟨.fin (2 ^ 149), .fin 0, .fin 0, .fin 0, .fin 0, .fin 0, .fin 0,
          .fin 0, .fin 0, .fin 0, .fin 0, .fin 0, .fin 0, .fin 0⟩ := by decide
  have hrec : decodeRec exBig 78 [⟨some (strB "x"), some (strB "float"), 0⟩] 4 0
      = .ok oneXRec := decodeRec_of_raw hraw
  have hm : mapE (decodeRec exBig 78 [⟨some (strB "x"), some (strB "float"), 0⟩] 4)
      (List.range (actualCountJS (1 : ℤ).toNat none)) = .ok [oneXRec] := by
    rw [show actualCountJS (1 : ℤ).toNat none = 1 from rfl,
      show List.range 1 = [0] from rfl]
    simp [mapE, hrec]
  have hdr : parseHeaderB exBig = .ok ⟨78,
      ⟨some 1, [⟨some (strB "x"), some (strB "float"), 0⟩], 4,
        strB "binary_big_endian"⟩⟩ := by decide
  exact parse_eval 1 hdr (by decide) (by decide) (by decide) hm

theorem parse_exAscii : parsePLYSplat exAscii none = .ok (buildData 1 [oneXRec]) := by
  have hraw : rawReads exAscii 66 [⟨some (strB "x"), some (strB "float"), 0⟩] 4 0
      = .ok ⟨.fin (2 ^ 149), .fin 0, .fin 0, .fin 0, .fin 0, .fin 0, .fin 0,
          .fin 0, .fin 0, .fin 0, .fin 0, .fin 0, .fin 0, .fin 0⟩ := by decide
  have hrec : decodeRec exAscii 66 [⟨some (strB "x"), some (strB "float"), 0⟩] 4 0
      = .ok oneXRec := decodeRec_of_raw hraw
  have hm : mapE (decodeRec exAscii 66 [⟨some (strB "x"), some (strB "float"), 0⟩] 4)
      (List.range (actualCountJS (1 : ℤ).toNat none)) = .ok [oneXRec] := by
    rw [show actualCountJS (1 : ℤ).toNat none = 1 from rfl,
      show List.range 1 = [0] from rfl]
    simp [mapE, hrec]
  have hdr : parseHeaderB exAscii = .ok ⟨66,
      ⟨some 1, [⟨some (strB "x"), some (strB "float"), 0⟩], 4, strB "ascii"⟩⟩ := by decide
  exact parse_eval 1 hdr (by decide) (by decide) (by decide) hm

theorem oneXRec_px : (buildData 1 [oneXRec]).positions.get? 0 = some (.fin 1) := by
  show some (toJSV (.fin (2 ^ 149))) = some (.fin 1)
  rw [toJSV_fin, f32R]
  norm_num

/-- Counterexample to **C7.** The container `exBig` declares
`binary_big_endian` (the parsed format token confirms it), stores the
bytes `00 00 80 3f` in its `x` field, and decodes `x` to `1.0` — the
LITTLE-endian interpretation.  The byte-swapped interpretation the
claim requires is the subnormal `32831/2¹⁴⁹ ≠ 1`; no swap happens, and
no `UnsupportedEncodingError` exists for ascii either (see the amended
theorem). -/
theorem big_endian_ignored_cex :
    (parseHeaderB exBig).map (fun h => h.st.format) = .ok (strB "binary_big_endian") ∧
    parsePLYSplat exBig none = .ok (buildData 1 [oneXRec]) ∧
    (buildData 1 [oneXRec]).positions.get? 0 = some (.fin 1) ∧
    decodeF32LE (exBig.getD 81 0) (exBig.getD 80 0) (exBig.getD 79 0) (exBig.getD 78 0)
      = .fin 32831 ∧
    JSV.fin (1 : ℝ) ≠ JSV.fin (f32R 32831) := by
  refine ⟨by decide, parse_exBig, oneXRec_px, by decide, ?_⟩
  intro hcontra
  rw [JSV.fin.injEq, f32R] at hcontra
  norm_num at hcontra

/-- **C7 (amended).** Every successful field read returns the
little-endian IEEE-754 interpretation of the bytes at the property's
offset, regardless of the declared format: the format token is parsed
but never consulted.  A `binary_big_endian` container is read
little-endian with no byte swap, and an `ascii` container is decoded
as binary instead of failing with an encoding error. -/
theorem little_endian_always_amended :
    (∀ (bytes : List ℕ) (he : ℕ) (props : List PropD) (vOff : ℕ) (pname : List ℕ)
        (v : F32) (p : PropD),
      getFloat bytes he props vOff pname = .ok v →
      props.find? (fun q => q.name = some pname) = some p →
      v = decodeF32LE (bytes.getD (he + vOff + p.off) 0)
            (bytes.getD (he + vOff + p.off + 1) 0)
            (bytes.getD (he + vOff + p.off + 2) 0)
            (bytes.getD (he + vOff + p.off + 3) 0)) ∧
    ((parseHeaderB exBig).map (fun h => h.st.format) = .ok (strB "binary_big_endian") ∧
      parsePLYSplat exBig none = .ok (buildData 1 [oneXRec]) ∧
      (buildData 1 [oneXRec]).positions.get? 0 = some (.fin 1)) ∧
    ((parseHeaderB exAscii).map (fun h => h.st.format) = .ok (strB "ascii") ∧
      parsePLYSplat exAscii none = .ok (buildData 1 [oneXRec])) := by
  refine ⟨?_, ⟨by decide, parse_exBig, oneXRec_px⟩, ⟨by decide, parse_exAscii⟩⟩
  intro bytes he props vOff pname v p h hp
  exact (getFloat_ok_inbounds h hp).2

/-- Witness for `little_endian_always_amended`: the value read from
`exBig`'s `x` field equals the little-endian decoding of its bytes. -/
theorem little_endian_always_amended_witness :
    F32.fin (2 ^ 149)
      = decodeF32LE (exBig.getD (78 + 0 + 0) 0) (exBig.getD (78 + 0 + 0 + 1) 0)
          (exBig.getD (78 + 0 + 0 + 2) 0) (exBig.getD (78 + 0 + 0 + 3) 0) :=
  little_endian_always_amended.1 exBig 78 [⟨some (strB "x"), some (strB "float"), 0⟩]
    0 (strB "x") (.fin (2 ^ 149)) ⟨some (strB "x"), some (strB "float"), 0⟩
    (by decide) (by decide)

theorem parse_exInf : parsePLYSplat exInf none = .ok (buildData 1 [infRec]) := by
  have hraw : rawReads exInf 81 [⟨some (strB "x"), some (strB "float"), 0⟩] 4 0
      = .ok ⟨.inf, .fin 0, .fin 0, .fin 0, .fin 0, .fin 0, .fin 0,
          .fin 0, .fin 0, .fin 0, .fin 0, .fin 0, .fin 0, .fin 0⟩ := by decide
  have hrec : decodeRec exInf 81 [⟨some (strB "x"), some (strB "float"), 0⟩] 4 0
      = .ok infRec := decodeRec_of_raw hraw
  have hm : mapE (decodeRec exInf 81 [⟨some (strB "x"), some (strB "float"), 0⟩] 4)
      (List.range (actualCountJS (1 : ℤ).toNat none)) = .ok [infRec] := by
    rw [show actualCountJS (1 : ℤ).toNat none = 1 from rfl,
      show List.range 1 = [0] from rfl]
    simp [mapE, hrec]
  have hdr : parseHeaderB exInf = .ok ⟨81,
      ⟨some 1, [⟨some (strB "x"), some (strB "float"), 0⟩], 4,
        strB "binary_little_endian"⟩⟩ := by decide
  exact parse_eval 1 hdr (by decide) (by decide) (by decide) hm

/-- Counterexample to **C8.** The container `exInf` stores the `+∞` bit
pattern `00 00 80 7f` in its `x` field; the decoded positions buffer
then contains the non-finite element `+∞` (positions are passed through
with no sanitization), refuting "no element of the decoded attribute
buffers is ever NaN or non-finite". -/
theorem nonfinite_position_cex :
    parsePLYSplat exInf none = .ok (buildData 1 [infRec]) ∧
    decodeF32LE (exInf.getD 81 0) (exInf.getD 82 0) (exInf.getD 83 0) (exInf.getD 84 0)
      = .inf ∧
    (buildData 1 [infRec]).positions.get? 0 = some JSV.inf ∧
    jsFinite JSV.inf = false :=
  ⟨parse_exInf, by decide, rfl, rfl⟩

/-- **C8 (amended).** For finite stored `f_dc_k` values each base-color
channel equals `clamp(0.5 + 0.28209479177387814·f_dc_k, 0, 1)` and lies
in `[0, 1]`; but the buffers are NOT always finite — a non-finite
stored field (e.g. an Infinity bit pattern in `x`) propagates into the
output unsanitized (see the counterexample). -/
theorem color_clamp_amended :
    ∀ (bytes : List ℕ) (cap : Option ℕ) (hd : HeaderInfo) (d : SplatData) (i : ℕ),
      parseHeaderB bytes = .ok hd →
      parsePLYSplat bytes cap = .ok d →
      i < d.count →
      ((∀ n : ℤ,
        getFloat bytes hd.headerEnd hd.st.props (i * hd.st.runningOffset) (strB "f_dc_0")
          = .ok (.fin n) →
        d.colors.get? (3 * i) = some (.fin (max 0 (min 1 (0.5 + SH_C0 * f32R n)))) ∧
        (0 : ℝ) ≤ max 0 (min 1 (0.5 + SH_C0 * f32R n)) ∧
        max 0 (min 1 (0.5 + SH_C0 * f32R n)) ≤ 1) ∧
      (∀ n : ℤ,
        getFloat bytes hd.headerEnd hd.st.props (i * hd.st.runningOffset) (strB "f_dc_1")
          = .ok (.fin n) →
        d.colors.get? (3 * i + 1) = some (.fin (max 0 (min 1 (0.5 + SH_C0 * f32R n))))) ∧
      (∀ n : ℤ,
        getFloat bytes hd.headerEnd hd.st.props (i * hd.st.runningOffset) (strB "f_dc_2")
          = .ok (.fin n) →
        d.colors.get? (3 * i + 2) = some (.fin (max 0 (min 1 (0.5 + SH_C0 * f32R n)))))) := by
  intro bytes cap hd d i hhd hp hi
  obtain ⟨rec, hdec, hpos, hsc, hrot, hcol, hopq⟩ := record_at hhd hp hi
  obtain ⟨vx, vy, vz, s0, s1, s2, r0, r1, r2, r3, c0, c1, c2, vop,
    hx, hy, hz, hs0, hs1, hs2, hr0, hr1, hr2, hr3, hc0, hc1, hc2, hopac, hreceq⟩ :=
    decodeRec_ok hdec
  have hcr := hcol 0 (by norm_num)
  have hcg := hcol 1 (by norm_num)
  have hcb := hcol 2 (by norm_num)
  refine ⟨?_, ?_, ?_⟩
  · intro n hn
    rw [hn] at hc0
    obtain rfl := (Except.ok.inj hc0).symm
    have hfield : rec.cr = chanJS (.fin (f32R n)) := by rw [hreceq]; rfl
    rw [chanJS_fin] at hfield
    refine ⟨?_, le_max_left _ _, max_le (by norm_num) (min_le_left _ _)⟩
    show d.colors.get? (3 * i + 0) = _
    rw [hcr]
    simp [hfield]
  · intro n hn
    rw [hn] at hc1
    obtain rfl := (Except.ok.inj hc1).symm
    have hfield : rec.cg = chanJS (.fin (f32R n)) := by rw [hreceq]; rfl
    rw [chanJS_fin] at hfield
    rw [hcg]
    simp [hfield]
  · intro n hn
    rw [hn] at hc2
    obtain rfl := (Except.ok.inj hc2).symm
    have hfield : rec.cb = chanJS (.fin (f32R n)) := by rw [hreceq]; rfl
    rw [chanJS_fin] at hfield
    rw [hcb]
    simp [hfield]

theorem parse_exFdc : parsePLYSplat exFdc none = .ok (buildData 1 [fdcRec]) := by
  have hraw : rawReads exFdc 86 [⟨some (strB "f_dc_0"), some (strB "float"), 0⟩] 4 0
      = .ok ⟨.fin 0, .fin 0, .fin 0, .fin 0, .fin 0, .fin 0, .fin 0,
          .fin 0, .fin 0, .fin 0, .fin (5 * 2 ^ 150), .fin 0, .fin 0, .fin 0⟩ := by decide
  have hrec : decodeRec exFdc 86 [⟨some (strB "f_dc_0"), some (strB "float"), 0⟩] 4 0
      = .ok fdcRec := decodeRec_of_raw hraw
  have hm : mapE (decodeRec exFdc 86 [⟨some (strB "f_dc_0"), some (strB "float"), 0⟩] 4)
      (List.range (actualCountJS (1 : ℤ).toNat none)) = .ok [fdcRec] := by
    rw [show actualCountJS (1 : ℤ).toNat none = 1 from rfl,
      show List.range 1 = [0] from rfl]
    simp [mapE, hrec]
  have hdr : parseHeaderB exFdc = .ok ⟨86,
      ⟨some 1, [⟨some (strB "f_dc_0"), some (strB "float"), 0⟩], 4,
        strB "binary_little_endian"⟩⟩ := by decide
  exact parse_eval 1 hdr (by decide) (by decide) (by decide) hm

/-- Witness for `color_clamp_amended`: `f_dc_0 = 10.0` has pre-clamp
channel `0.5 + SH_C0·10 > 1`, and the decoded channel is clamped to 1. -/
theorem color_clamp_amended_witness :
    parsePLYSplat exFdc none = .ok (buildData 1 [fdcRec]) ∧
    (buildData 1 [fdcRec]).colors.get? 0
      = some (.fin (max 0 (min 1 (0.5 + SH_C0 * f32R (5 * 2 ^ 150))))) ∧
    (1 : ℝ) < 0.5 + SH_C0 * f32R (5 * 2 ^ 150) ∧
    max 0 (min 1 (0.5 + SH_C0 * f32R (5 * 2 ^ 150))) = 1 := by
  have hdr : parseHeaderB exFdc = .ok ⟨86,
      ⟨some 1, [⟨some (strB "f_dc_0"), some (strB "float"), 0⟩], 4,
        strB "binary_little_endian"⟩⟩ := by decide
  have hp := parse_exFdc
  have hval : f32R (5 * 2 ^ 150) = 10 := by
    rw [f32R]
    norm_num
  have hbig : (1 : ℝ) < 0.5 + SH_C0 * f32R (5 * 2 ^ 150) := by
    rw [hval, SH_C0]
    norm_num
  have h := (color_clamp_amended exFdc none _ _ 0 hdr hp (by norm_num [buildData])).1
    (5 * 2 ^ 150) (by decide)
  refine ⟨hp, h.1, hbig, ?_⟩
  rw [min_eq_left (by linarith), max_eq_right (by norm_num)]

theorem find_first_occurrence (pname : List ℕ) (pre : List PropD) (post : List PropD)
    (p : PropD) (hpre : ∀ q ∈ pre, ¬ q.name = some pname) (hp : p.name = some pname) :
    (pre ++ p :: post).find? (fun q => q.name = some pname) = some p := by
  induction pre with
  | nil =>
    simp [List.find?_cons, hp]
  | cons q qs ih =>
    have hq : ¬ q.name = some pname := hpre q (by simp)
    simp only [List.cons_append, List.find?_cons, decide_eq_false hq]
    exact ih (fun r hr => hpre r (by simp [hr]))

theorem parse_exDup : parsePLYSplat exDup none = .ok (buildData 1 [oneXRec]) := by
  have hraw : rawReads exDup 98
      [⟨some (strB "x"), some (strB "float"), 0⟩,
       ⟨some (strB "x"), some (strB "float"), 4⟩] 8 0
      = .ok ⟨.fin (2 ^ 149), .fin 0, .fin 0, .fin 0, .fin 0, .fin 0, .fin 0,
          .fin 0, .fin 0, .fin 0, .fin 0, .fin 0, .fin 0, .fin 0⟩ := by decide
  have hrec : decodeRec exDup 98
      [⟨some (strB "x"), some (strB "float"), 0⟩,
       ⟨some (strB "x"), some (strB "float"), 4⟩] 8 0
      = .ok oneXRec := decodeRec_of_raw hraw
  have hm : mapE (decodeRec exDup 98
      [⟨some (strB "x"), some (strB "float"), 0⟩,
       ⟨some (strB "x"), some (strB "float"), 4⟩] 8)
      (List.range (actualCountJS (1 : ℤ).toNat none)) = .ok [oneXRec] := by
    rw [show actualCountJS (1 : ℤ).toNat none = 1 from rfl,
      show List.range 1 = [0] from rfl]
    simp [mapE, hrec]
  have hdr : parseHeaderB exDup = .ok ⟨98,
      ⟨some 1, [⟨some (strB "x"), some (strB "float"), 0⟩,
        ⟨some (strB "x"), some (strB "float"), 4⟩], 8,
        strB "binary_little_endian"⟩⟩ := by decide
  exact parse_eval 1 hdr (by decide) (by decide) (by decide) hm

/-- Counterexample to **C9.** The container `exDup` declares `x` twice
(offsets 0 and 4, so each occurrence does advance the running offset,
and the stride is 8); the record stores `1.0` at offset 0 and `2.0` at
offset 4.  The decoded `x` is `1.0` — `Array.find` returns the FIRST
occurrence, not the last one the claim requires (`2.0`, scaled payload
`2¹⁵⁰`).  The name→index map that would retain the last occurrence is
built by the source but never consulted. -/
theorem dup_first_lookup_cex :
    (parseHeaderB exDup).map (fun h => h.st.props.map (fun p => p.off)) = .ok [0, 4] ∧
    (parseHeaderB exDup).map (fun h => h.st.runningOffset) = .ok 8 ∧
    parsePLYSplat exDup none = .ok (buildData 1 [oneXRec]) ∧
    decodeF32LE (exDup.getD 102 0) (exDup.getD 103 0) (exDup.getD 104 0)
      (exDup.getD 105 0) = .fin (2 ^ 150) ∧
    (buildData 1 [oneXRec]).positions.get? 0 = some (.fin 1) ∧
    JSV.fin (1 : ℝ) ≠ JSV.fin (f32R (2 ^ 150)) := by
  refine ⟨by decide, by decide, parse_exDup, by decide, oneXRec_px, ?_⟩
  intro hcontra
  rw [JSV.fin.injEq, f32R] at hcontra
  norm_num at hcontra

/-- **C9 (amended).** Each duplicate occurrence still advances the
running offset (both declarations get distinct offsets and both count
toward the stride), but name lookup during decoding addresses the byte
offset of the FIRST occurrence: `properties.find(...)` returns the
first match, and later duplicates are unreachable (the last-occurrence
name→index map the source builds is dead code). -/
theorem dup_lookup_amended :
    (∀ (pname : List ℕ) (pre post : List PropD) (p : PropD),
      (∀ q ∈ pre, ¬ q.name = some pname) →
      p.name = some pname →
      (pre ++ p :: post).find? (fun q => q.name = some pname) = some p) ∧
    (∀ (bytes : List ℕ) (he : ℕ) (vOff : ℕ) (pname : List ℕ)
        (post : List PropD) (p : PropD),
      p.name = some pname →
      getFloat bytes he (p :: post) vOff pname
        = getFloat bytes he [p] vOff pname) ∧
    ((parseHeaderB exDup).map (fun h => h.st.props.map (fun p => p.off)) = .ok [0, 4] ∧
      (parseHeaderB exDup).map (fun h => h.st.runningOffset) = .ok 8 ∧
      parsePLYSplat exDup none = .ok (buildData 1 [oneXRec]) ∧
      (buildData 1 [oneXRec]).positions.get? 0 = some (.fin 1)) := by
  refine ⟨find_first_occurrence, ?_, by decide, by decide, parse_exDup, oneXRec_px⟩
  intro bytes he vOff pname post p hp
  have h1 : (p :: post).find? (fun q => q.name = some pname) = some p :=
    find_first_occurrence pname [] post p (by simp) hp
  have h2 : ([p] : List PropD).find? (fun q => q.name = some pname) = some p :=
    find_first_occurrence pname [] [] p (by simp) hp
  rw [getFloat, getFloat, h1, h2]

/-- Witness for `dup_lookup_amended`: with two properties both named
`x` at offsets 0 and 4, lookup returns the first. -/
theorem dup_lookup_amended_witness :
    ((([] : List PropD) ++ (⟨some (strB "x"), some (strB "float"), 0⟩ : PropD) ::
        [⟨some (strB "x"), some (strB "float"), 4⟩]).find?
      (fun q => q.name = some (strB "x")))
      = some ⟨some (strB "x"), some (strB "float"), 0⟩ :=
  dup_lookup_amended.1 (strB "x") [] [⟨some (strB "x"), some (strB "float"), 4⟩]
    ⟨some (strB "x"), some (strB "float"), 0⟩ (by simp) (by decide)
